import Mathlib

/-!
# avr328p-hal: the TWI (I2C) bus master driver and the serial port setup

A shallow embedding of `lib/i2cMaster/i2cMaster.c` and `i2cMaster.h`, and of
`uart0_calc_ubrr` and `uart0_init` of `lib/uart_hal/uart0.c`.

* Machine integers are `Nat` with explicit reduction: `uint8_t` values are taken
  `% 256`, `uint32_t` values `% 4294967296`.
* The memory-mapped registers are volatile.  Every write is appended to a log;
  every read of `TWCR` or `TWSR` consumes the next element of an input stream,
  so a theorem quantified over all streams holds for every hardware behaviour.
* A division whose divisor is zero is undefined in C: the function that makes
  it returns `none`.
* The polling loops recurse on a fuel argument and return `none` when it runs
  out.  The driver runs them with fuel `2^32`, and the theorems show that this
  is always enough: every driver function returns `some` result.
-/

namespace I2cMaster

/-! ## i2cMaster.h -/

/-- Return codes of the driver (`typedef enum { ... } i2c_status_t`). -/
inductive i2c_status_t where
  | I2C_OK
  | I2C_NACK
  | I2C_ERROR
  | I2C_TIMEOUT_ERR
  deriving DecidableEq, Repr

open i2c_status_t

/-- The three build-time constants of `i2cMaster.h`.  Each one is wrapped in
`#ifndef` and may be overridden by the build; the defaults are in `defaults`. -/
structure Config where
  F_CPU : Nat
  I2C_SCL_FREQ : Nat
  I2C_TIMEOUT : Nat
  deriving Repr

/-- The values `i2cMaster.h` gives when the build overrides nothing:
`F_CPU 16000000UL`, `I2C_SCL_FREQ 100000UL`, `I2C_TIMEOUT 60000UL`. -/
def defaults : Config := ⟨16000000, 100000, 60000⟩

/-! ## Registers -/

/-- Bit positions of `TWCR` on the ATmega328P, as `<avr/io.h>` defines them. -/
def TWINT : Nat := 7
def TWSTA : Nat := 5
def TWSTO : Nat := 4
def TWEN : Nat := 2

/-- The TWI registers the driver touches. -/
inductive Reg where
  | TWBR
  | TWSR
  | TWDR
  | TWCR
  deriving DecidableEq, Repr

/-- Hardware as the driver sees it.  `twcr_in k` and `twsr_in k` are the values
the `k`-th read of `TWCR` and of `TWSR` returns, `twcr_reads` and `twsr_reads`
count the reads made so far, and `writes` logs every register write, newest
first, with the 8-bit value stored. -/
structure Hw where
  twcr_in : Nat → Nat
  twsr_in : Nat → Nat
  twcr_reads : Nat
  twsr_reads : Nat
  writes : List (Reg × Nat)

/-- Store to an 8-bit register: `REG = v;`. -/
def reg_write (r : Reg) (v : Nat) (hw : Hw) : Hw :=
  { hw with writes := (r, v % 256) :: hw.writes }

/-- Value returned by the next read of `TWCR`. -/
def TWCR_value (hw : Hw) : Nat := hw.twcr_in hw.twcr_reads % 256

/-- Hardware state after one read of `TWCR`. -/
def TWCR_next (hw : Hw) : Hw := { hw with twcr_reads := hw.twcr_reads + 1 }

/-- Value returned by the next read of `TWSR`. -/
def TWSR_value (hw : Hw) : Nat := hw.twsr_in hw.twsr_reads % 256

/-- Hardware state after one read of `TWSR`. -/
def TWSR_next (hw : Hw) : Hw := { hw with twsr_reads := hw.twsr_reads + 1 }

/-- Most recent value written to register `r`, if any. -/
def last_write (r : Reg) : List (Reg × Nat) → Option Nat
  | [] => none
  | (r1, v) :: rest => if r1 = r then some v else last_write r rest

/-- Values written to register `r`, newest first. -/
def writes_to (r : Reg) (log : List (Reg × Nat)) : List Nat :=
  (log.filter (fun e => decide (e.1 = r))).map Prod.snd

/-! ## Observations used in the statements -/

/-- The `k`-th read of `TWCR` from now on returns a value with bit `bit` set. -/
def flag_at (bit : Nat) (hw : Hw) (k : Nat) : Prop :=
  (hw.twcr_in (hw.twcr_reads + k) % 256) &&& (1 <<< bit) ≠ 0

instance (bit : Nat) (hw : Hw) (k : Nat) : Decidable (flag_at bit hw k) :=
  inferInstanceAs (Decidable ((hw.twcr_in (hw.twcr_reads + k) % 256) &&& (1 <<< bit) ≠ 0))

/-- State `hw` after `p` further reads of `TWCR` and nothing else. -/
def after_polls (p : Nat) (hw : Hw) : Hw := { hw with twcr_reads := hw.twcr_reads + p }

/-! ## i2cMaster.c -/

def TW_STATUS_MASK : Nat := 0xF8
def TW_START : Nat := 0x08
def TW_REP_START : Nat := 0x10
def TW_MT_SLA_ACK : Nat := 0x18
def TW_MT_SLA_NACK : Nat := 0x20
def TW_MT_DATA_ACK : Nat := 0x28
def TW_MT_DATA_NACK : Nat := 0x30
def TW_MT_ARB_LOST : Nat := 0x38
def TW_MR_SLA_ACK : Nat := 0x40
def TW_MR_SLA_NACK : Nat := 0x48
def TW_MR_DATA_ACK : Nat := 0x50
def TW_MR_DATA_NACK : Nat := 0x58
def TW_BUS_ERROR : Nat := 0x00

/-- Source: `return (uint8_t)(TWSR & TW_STATUS_MASK);` (one read of `TWSR`). -/
def twi_status (hw : Hw) : Nat × Hw :=
  ((TWSR_value hw &&& TW_STATUS_MASK) % 256, TWSR_next hw)

/-- The 32-bit pre-decrement `--t`. -/
def dec32 (t : Nat) : Nat := (t + 4294967295) % 4294967296

/-- Fuel given to the polling loops: a 32-bit counter allows at most `2^32` polls. -/
def poll_fuel : Nat := 4294967296

/-- The loop of `twi_wait_twint`, entered with counter `t`:
`while (!(TWCR & (1 << TWINT))) { if (--t == 0) return I2C_TIMEOUT_ERR; } return I2C_OK;`
One unit of fuel is spent per poll. -/
def twi_wait_loop : Nat → Nat → Hw → Option (i2c_status_t × Hw)
  | 0, _, _ => none
  | fuel + 1, t, hw =>
    if TWCR_value hw &&& (1 <<< TWINT) ≠ 0 then
      some (I2C_OK, TWCR_next hw)
    else if dec32 t = 0 then
      some (I2C_TIMEOUT_ERR, TWCR_next hw)
    else
      twi_wait_loop fuel (dec32 t) (TWCR_next hw)

/-- Source: `uint32_t t = I2C_TIMEOUT;` followed by the polling loop. -/
def twi_wait_twint (cfg : Config) (hw : Hw) : Option (i2c_status_t × Hw) :=
  twi_wait_loop poll_fuel (cfg.I2C_TIMEOUT % 4294967296) hw

/-- Source: `twi_send_start(uint8_t allow_repeated)`. -/
def twi_send_start (cfg : Config) (allow_repeated : Nat) (hw : Hw) :
    Option (i2c_status_t × Hw) :=
  let hw1 := reg_write Reg.TWCR ((1 <<< TWINT) ||| (1 <<< TWSTA) ||| (1 <<< TWEN)) hw
  match twi_wait_twint cfg hw1 with
  | none => none
  | some r =>
    if r.1 ≠ I2C_OK then
      some r
    else
      let s := twi_status r.2
      if s.1 = TW_START then
        some (I2C_OK, s.2)
      else if allow_repeated ≠ 0 ∧ s.1 = TW_REP_START then
        some (I2C_OK, s.2)
      else if s.1 = TW_MT_ARB_LOST then
        some (I2C_ERROR, s.2)
      else if s.1 = TW_BUS_ERROR then
        some (I2C_ERROR, s.2)
      else
        some (I2C_ERROR, s.2)

/-- Source: `twi_send_sla(uint8_t sla_rw, uint8_t expect_ack, uint8_t expect_nack)`. -/
def twi_send_sla (cfg : Config) (sla_rw expect_ack expect_nack : Nat) (hw : Hw) :
    Option (i2c_status_t × Hw) :=
  let hw1 := reg_write Reg.TWDR sla_rw hw
  let hw2 := reg_write Reg.TWCR ((1 <<< TWINT) ||| (1 <<< TWEN)) hw1
  match twi_wait_twint cfg hw2 with
  | none => none
  | some r =>
    if r.1 ≠ I2C_OK then
      some r
    else
      let s := twi_status r.2
      if s.1 = expect_ack then
        some (I2C_OK, s.2)
      else if s.1 = expect_nack then
        some (I2C_NACK, s.2)
      else if s.1 = TW_MT_ARB_LOST then
        some (I2C_ERROR, s.2)
      else if s.1 = TW_BUS_ERROR then
        some (I2C_ERROR, s.2)
      else
        some (I2C_ERROR, s.2)

/-- The divider `i2c_init` stores in `TWBR`, computed in `unsigned long` (32
bits on AVR): `uint32_t twbr = ((F_CPU / I2C_SCL_FREQ) - 16UL) / 2UL;`
`if (twbr > 255UL) twbr = 255UL;` and then the cast `(uint8_t)twbr`. -/
def i2c_init_twbr (cfg : Config) : Nat :=
  let twbr := (((cfg.F_CPU / cfg.I2C_SCL_FREQ) % 4294967296 + 4294967296 - 16) % 4294967296) / 2
  let twbr := if twbr > 255 then 255 else twbr
  twbr % 256

/-- Source: `i2c_init`: `TWSR = 0x00;`, `TWBR = (uint8_t)twbr;`, `TWCR = (1 << TWEN);`. -/
def i2c_init (cfg : Config) (hw : Hw) : Hw :=
  let hw1 := reg_write Reg.TWSR 0x00 hw
  let hw2 := reg_write Reg.TWBR (i2c_init_twbr cfg) hw1
  reg_write Reg.TWCR (1 <<< TWEN) hw2

/-- The address byte `(uint8_t)((addr7 << 1) | rw)`; `addr7` is promoted to
`int` before the shift, the cast keeps the low eight bits. -/
def sla_byte (addr7 rw : Nat) : Nat := (((addr7 % 256) <<< 1) ||| rw) % 256

def i2c_start_write (cfg : Config) (addr7 : Nat) (hw : Hw) : Option (i2c_status_t × Hw) :=
  match twi_send_start cfg 0 hw with
  | none => none
  | some r =>
    if r.1 ≠ I2C_OK then
      some r
    else
      twi_send_sla cfg (sla_byte addr7 0) TW_MT_SLA_ACK TW_MT_SLA_NACK r.2

def i2c_start_read (cfg : Config) (addr7 : Nat) (hw : Hw) : Option (i2c_status_t × Hw) :=
  match twi_send_start cfg 0 hw with
  | none => none
  | some r =>
    if r.1 ≠ I2C_OK then
      some r
    else
      twi_send_sla cfg (sla_byte addr7 1) TW_MR_SLA_ACK TW_MR_SLA_NACK r.2

def i2c_restart_write (cfg : Config) (addr7 : Nat) (hw : Hw) : Option (i2c_status_t × Hw) :=
  match twi_send_start cfg 1 hw with
  | none => none
  | some r =>
    if r.1 ≠ I2C_OK then
      some r
    else
      twi_send_sla cfg (sla_byte addr7 0) TW_MT_SLA_ACK TW_MT_SLA_NACK r.2

def i2c_restart_read (cfg : Config) (addr7 : Nat) (hw : Hw) : Option (i2c_status_t × Hw) :=
  match twi_send_start cfg 1 hw with
  | none => none
  | some r =>
    if r.1 ≠ I2C_OK then
      some r
    else
      twi_send_sla cfg (sla_byte addr7 1) TW_MR_SLA_ACK TW_MR_SLA_NACK r.2

/-- The loop of `i2c_stop`, entered with counter `t`:
`while ((TWCR & (1 << TWSTO)) && --t) { ; }`  One unit of fuel is spent per poll. -/
def i2c_stop_loop : Nat → Nat → Hw → Option Hw
  | 0, _, _ => none
  | fuel + 1, t, hw =>
    if TWCR_value hw &&& (1 <<< TWSTO) ≠ 0 then
      if dec32 t ≠ 0 then
        i2c_stop_loop fuel (dec32 t) (TWCR_next hw)
      else
        some (TWCR_next hw)
    else
      some (TWCR_next hw)

/-- Source: `void i2c_stop(void)`. -/
def i2c_stop (cfg : Config) (hw : Hw) : Option Hw :=
  let hw1 := reg_write Reg.TWCR ((1 <<< TWINT) ||| (1 <<< TWEN) ||| (1 <<< TWSTO)) hw
  i2c_stop_loop poll_fuel (cfg.I2C_TIMEOUT % 4294967296) hw1

/-! ## Call sequences -/

/-- One call of the public start, restart and stop functions. -/
inductive Call where
  | start_write (addr7 : Nat)
  | start_read (addr7 : Nat)
  | restart_write (addr7 : Nat)
  | restart_read (addr7 : Nat)
  | stop
  deriving DecidableEq, Repr

/-- Hardware state after one call; the returned status is dropped. -/
def run_call (cfg : Config) (c : Call) (hw : Hw) : Option Hw :=
  match c with
  | Call.start_write a => (i2c_start_write cfg a hw).map Prod.snd
  | Call.start_read a => (i2c_start_read cfg a hw).map Prod.snd
  | Call.restart_write a => (i2c_restart_write cfg a hw).map Prod.snd
  | Call.restart_read a => (i2c_restart_read cfg a hw).map Prod.snd
  | Call.stop => i2c_stop cfg hw

/-- Hardware state after a sequence of calls, made in list order. -/
def run_calls (cfg : Config) : List Call → Hw → Option Hw
  | [], hw => some hw
  | c :: cs, hw =>
    match run_call cfg c hw with
    | none => none
    | some hw1 => run_calls cfg cs hw1

/-! ## Transfer orchestrator

`i2cMaster.c` declares `i2c_write`, `i2c_read_ack`, `i2c_read_nack`,
`i2c_write_reg` and `i2c_read_reg` without defining them.  The definitions of
this section follow the specification of the orchestrator instead: the
primitives are an injected bus whose sub-steps return prescribed outcomes. -/

/-- Modelled from the spec: the protocol steps an orchestrator operation issues
(the bodies of `i2c_write`, `i2c_read_ack` and `i2c_read_nack` are missing from
the source): start, address phase with the byte put on the bus, one data byte
sent, repeated start, one byte received with ack, one byte received with nack,
and stop. -/
inductive Prim where
  | start
  | address (byte : Nat)
  | send (byte : Nat)
  | repeated_start
  | receive_ack
  | receive_nack
  | stop
  deriving DecidableEq, Repr

/-- Modelled from the spec: a bus controller with injected behaviour, standing
for the primitives whose bodies are missing from the source.  `outcome n` is the
outcome of the `n`-th sub-step issued and `rx n` the byte it delivers when it is
a receive; `steps` counts the sub-steps issued so far, `issued` logs every
primitive issued, newest first, and `received` holds the bytes stored in the
caller's buffer, in order. -/
structure Bus where
  outcome : Nat → i2c_status_t
  rx : Nat → Nat
  steps : Nat
  issued : List Prim
  received : List Nat

/-- Modelled from the spec: one sub-step (any primitive but stop, whose body is
missing from the source) returns its injected outcome; a receive that succeeds
stores its byte. -/
def Bus.step (b : Bus) (p : Prim) : i2c_status_t × Bus :=
  let st := b.outcome b.steps
  let got := if (p = Prim.receive_ack ∨ p = Prim.receive_nack) ∧ st = I2C_OK
    then [b.rx b.steps] else []
  (st, { b with steps := b.steps + 1, issued := p :: b.issued, received := b.received ++ got })

/-- Modelled from the spec: the stop primitive as the orchestrator sees it (the
orchestrator bodies calling `i2c_stop` are missing from the source); it returns
no outcome. -/
def Bus.stop (b : Bus) : Bus := { b with issued := Prim.stop :: b.issued }

/-- Modelled from the spec: the sub-steps of one operation are issued in order
and the operation aborts on the first non-Ok step, returning that outcome (the
orchestrator bodies are missing from the source). -/
def run_steps (b : Bus) : List Prim → i2c_status_t × Bus
  | [] => (I2C_OK, b)
  | p :: ps =>
    let r := b.step p
    if r.1 ≠ I2C_OK then r else run_steps r.2 ps

/-- Modelled from the spec: the data phase of a read of `len` bytes (the body of
`i2c_read_reg` is missing from the source): `len - 1` receives with ack, then
one receive with nack; nothing at all for `len = 0`. -/
def read_phase (len : Nat) : List Prim :=
  if len = 0 then [] else List.replicate (len - 1) Prim.receive_ack ++ [Prim.receive_nack]

/-- Modelled from the spec: `i2c_write_reg`, whose body is missing from the
source: start, address (write), send `reg`, send each data byte, stop; it
aborts and stops the bus on the first non-Ok step and returns that outcome. -/
def i2c_write_reg (b : Bus) (addr7 reg : Nat) (data : List Nat) (len : Nat) :
    i2c_status_t × Bus :=
  let r := run_steps b
    ([Prim.start, Prim.address (sla_byte addr7 0), Prim.send (reg % 256)] ++
      (List.range len).map (fun i => Prim.send (data.getD i 0)))
  (r.1, r.2.stop)

/-- Modelled from the spec: `i2c_read_reg`, whose body is missing from the
source: start, address (write), send `reg`, repeated start, address (read),
receive the bytes (ack, last one nack), stop; it aborts and stops the bus on
the first non-Ok step and returns that outcome.  The third component is the
caller's buffer afterwards: the bytes received, then the rest of `data`. -/
def i2c_read_reg (b : Bus) (addr7 reg : Nat) (data : List Nat) (len : Nat) :
    i2c_status_t × Bus × List Nat :=
  let r := run_steps b
    ([Prim.start, Prim.address (sla_byte addr7 0), Prim.send (reg % 256),
      Prim.repeated_start, Prim.address (sla_byte addr7 1)] ++ read_phase len)
  let got := r.2.received.drop b.received.length
  (r.1, r.2.stop, got ++ data.drop got.length)

/-- A bus on which every sub-step succeeds and every receive delivers `0xAB`;
nothing issued yet. -/
def bus_ok : Bus := ⟨fun _ => I2C_OK, fun _ => 0xAB, 0, [], []⟩

/-- A bus on which the address phase (sub-step 1) is not acknowledged and every
other sub-step succeeds; nothing issued yet. -/
def bus_nack : Bus := ⟨fun n => if n = 1 then I2C_NACK else I2C_OK, fun _ => 0xAB, 0, [], []⟩

/-! ## uart0.h and uart0.c: initialization of the serial port -/

/-- Return codes of the serial driver (`typedef enum { ... } uart_status_t`). -/
inductive uart_status_t where
  | UART_OK
  | UART_ERR_PARAM
  | UART_ERR_TIMEOUT
  | UART_ERR_HW
  deriving DecidableEq, Repr

inductive uart_parity_t where
  | UART_PARITY_NONE
  | UART_PARITY_EVEN
  | UART_PARITY_ODD
  deriving DecidableEq, Repr

inductive uart_stopbits_t where
  | UART_STOP_1
  | UART_STOP_2
  deriving DecidableEq, Repr

open uart_status_t uart_parity_t uart_stopbits_t

/-- Source: `uart0_config_t`.  `baud` is a `uint32_t`; `databits` is kept as a
number so that a value outside 5..8 reaches the `default:` branch. -/
structure uart0_config_t where
  baud : Nat
  databits : Nat
  parity : uart_parity_t
  stopbits : uart_stopbits_t
  use_u2x : Bool
  deriving DecidableEq, Repr

/-- The USART0 registers `uart0_init` reads and writes, as 8-bit values.  A read
returns the value the state holds. -/
structure UartRegs where
  UCSR0A : Nat
  UCSR0B : Nat
  UCSR0C : Nat
  UBRR0H : Nat
  UBRR0L : Nat
  deriving DecidableEq, Repr

/-- Bit positions of the USART0 registers on the ATmega328P, as `<avr/io.h>`
defines them. -/
def U2X0 : Nat := 1
def RXEN0 : Nat := 4
def TXEN0 : Nat := 3
def UCSZ02 : Nat := 2
def UCSZ01 : Nat := 2
def UCSZ00 : Nat := 1
def USBS0 : Nat := 3
def UPM01 : Nat := 5
def UPM00 : Nat := 4

/-- The 8-bit update `REG &= ~m;`. -/
def clear_bits (v m : Nat) : Nat := (v &&& (0xFF ^^^ (m % 256))) % 256

/-- The 8-bit update `REG |= m;`. -/
def set_bits (v m : Nat) : Nat := (v ||| m) % 256

/-- The divisor `div * baud` of `uart0_calc_ubrr`, a product of two `uint32_t`:
`uint32_t div = u2x ? 8UL : 16UL;` and the parameter `uint32_t baud`. -/
def uart0_divisor (baud : Nat) (u2x : Bool) : Nat :=
  ((if u2x then 8 else 16) * (baud % 4294967296)) % 4294967296

/-- Source: `uart0_calc_ubrr(uint32_t baud, bool u2x)`, with `F_CPU` the clock
constant of `uart0.h` (default `16000000UL`).  The result is `none` when the
division `F_CPU / (div * baud)` has divisor 0, which C leaves undefined. -/
def uart0_calc_ubrr (F_CPU baud : Nat) (u2x : Bool) : Option Nat :=
  if baud % 4294967296 = 0 then
    some 0
  else if uart0_divisor baud u2x = 0 then
    none
  else
    let ubrr := ((F_CPU % 4294967296) / uart0_divisor baud u2x + 4294967296 - 1) % 4294967296
    let ubrr := if ubrr > 0x0FFF then 0x0FFF else ubrr
    some (ubrr % 65536)

/-- Source: the end of `uart0_init`, from the stop bits on: stop bits, parity,
`UCSR0B |= (1 << RXEN0) | (1 << TXEN0);`, the read of `UDR0` (which leaves the
registers of this model as they are) and `return UART_OK;`. -/
def uart0_init_frame (c : uart0_config_t) (r : UartRegs) : uart_status_t × UartRegs :=
  let r1 := if c.stopbits = UART_STOP_2
    then { r with UCSR0C := set_bits r.UCSR0C (1 <<< USBS0) }
    else { r with UCSR0C := clear_bits r.UCSR0C (1 <<< USBS0) }
  let r2 := { r1 with UCSR0C := clear_bits r1.UCSR0C ((1 <<< UPM01) ||| (1 <<< UPM00)) }
  let r3 := if c.parity = UART_PARITY_EVEN
    then { r2 with UCSR0C := set_bits r2.UCSR0C (1 <<< UPM01) }
    else if c.parity = UART_PARITY_ODD
      then { r2 with UCSR0C := set_bits r2.UCSR0C ((1 <<< UPM01) ||| (1 <<< UPM00)) }
      else r2
  (UART_OK, { r3 with UCSR0B := set_bits r3.UCSR0B ((1 <<< RXEN0) ||| (1 <<< TXEN0)) })

/-- Source: `uart0_init(const uart0_config_t *cfg)`; a null pointer is `none`.
The result is `none` when the call runs into the undefined division of
`uart0_calc_ubrr`. -/
def uart0_init (F_CPU : Nat) (cfg : Option uart0_config_t) (r : UartRegs) :
    Option (uart_status_t × UartRegs) :=
  match cfg with
  | none => some (UART_ERR_PARAM, r)
  | some c =>
    if c.baud % 4294967296 = 0 then
      some (UART_ERR_PARAM, r)
    else
      let r1 := { r with UCSR0B := clear_bits r.UCSR0B ((1 <<< TXEN0) ||| (1 <<< RXEN0)) }
      let r2 := if c.use_u2x
        then { r1 with UCSR0A := set_bits r1.UCSR0A (1 <<< U2X0) }
        else { r1 with UCSR0A := clear_bits r1.UCSR0A (1 <<< U2X0) }
      match uart0_calc_ubrr F_CPU c.baud c.use_u2x with
      | none => none
      | some ubrr =>
        let r3 := { r2 with UBRR0H := ((ubrr >>> 8) &&& 0x0F) % 256,
                            UBRR0L := (ubrr &&& 0xFF) % 256 }
        let r4 := { r3 with UCSR0B := clear_bits r3.UCSR0B (1 <<< UCSZ02) }
        let r5 := { r4 with UCSR0C := clear_bits r4.UCSR0C ((1 <<< UCSZ01) ||| (1 <<< UCSZ00)) }
        if c.databits = 5 then
          some (uart0_init_frame c r5)
        else if c.databits = 6 then
          some (uart0_init_frame c { r5 with UCSR0C := set_bits r5.UCSR0C (1 <<< UCSZ00) })
        else if c.databits = 7 then
          some (uart0_init_frame c { r5 with UCSR0C := set_bits r5.UCSR0C (1 <<< UCSZ01) })
        else if c.databits = 8 then
          some (uart0_init_frame c
            { r5 with UCSR0C := set_bits r5.UCSR0C ((1 <<< UCSZ01) ||| (1 <<< UCSZ00)) })
        else
          some (UART_ERR_PARAM, r5)

/-- A serial configuration: 8 data bits, no parity, one stop bit. -/
def uart_8n1 (baud : Nat) (u2x : Bool) : uart0_config_t :=
  ⟨baud, 8, UART_PARITY_NONE, UART_STOP_1, u2x⟩

/-- USART0 registers at their reset values relevant here (all zero). -/
def uart_regs_zero : UartRegs := ⟨0, 0, 0, 0, 0⟩

/-! ## Concrete inputs -/

/-- Hardware that shows the completion flag on every read of `TWCR` (value
`0x80`, `TWSTO` clear) and reports status `0x08`; nothing read or written yet. -/
def hw_ready : Hw := ⟨fun _ => 0x80, fun _ => 0x08, 0, 0, []⟩

/-- Hardware that never raises the completion flag and keeps `TWSTO` set
(`TWCR` always reads `0x10`); nothing read or written yet. -/
def hw_silent : Hw := ⟨fun _ => 0x10, fun _ => 0xF8, 0, 0, []⟩

/-- Hardware that shows the completion flag on every read of `TWCR` and reports
status `0x18` (address acknowledged by a receiver); nothing read or written yet. -/
def hw_ack : Hw := ⟨fun _ => 0x80, fun _ => 0x18, 0, 0, []⟩

/-- A build with `I2C_TIMEOUT` overridden to `n`, the other constants at their defaults. -/
def with_timeout (n : Nat) : Config := ⟨16000000, 100000, n⟩

/-- A build with `F_CPU` overridden to `f` and `I2C_SCL_FREQ` to `s`, the timeout
at its default. -/
def with_clock (f s : Nat) : Config := ⟨f, s, 60000⟩

/-! ## Lemmas on the polling loops -/

theorem flag_at_zero (bit : Nat) (hw : Hw) :
    flag_at bit hw 0 ↔ TWCR_value hw &&& (1 <<< bit) ≠ 0 := by
  simp [flag_at, TWCR_value]

theorem flag_at_next (bit : Nat) (hw : Hw) (k : Nat) :
    flag_at bit (TWCR_next hw) k ↔ flag_at bit hw (k + 1) := by
  simp [flag_at, TWCR_next, Nat.add_assoc, Nat.add_comm 1 k]

theorem flag_at_reg_write (bit : Nat) (r : Reg) (v : Nat) (hw : Hw) (k : Nat) :
    flag_at bit (reg_write r v hw) k ↔ flag_at bit hw k := by
  simp [flag_at, reg_write]

theorem after_polls_next (p : Nat) (hw : Hw) :
    after_polls p (TWCR_next hw) = after_polls (p + 1) hw := by
  simp [after_polls, TWCR_next, Nat.add_assoc, Nat.add_comm 1 p]

theorem dec32_dec32 (t : Nat) (h : dec32 t ≠ 0) : dec32 (dec32 t) = dec32 t - 1 := by
  unfold dec32 at *
  omega

theorem dec32_lt_fuel (t : Nat) : dec32 t < poll_fuel := by
  unfold dec32 poll_fuel
  omega

theorem dec32_of_pos (t : Nat) (h1 : 1 ≤ t) (h32 : t < 4294967296) : dec32 t = t - 1 := by
  unfold dec32
  omega

/-- The wait loop returns `I2C_OK` at the first poll that sees the flag, when
that poll comes before the counter reaches zero and the fuel lasts. -/
theorem twi_wait_loop_ok (k : Nat) : ∀ (fuel t : Nat) (hw : Hw), k < fuel → k ≤ dec32 t →
    (∀ j, j < k → ¬ flag_at TWINT hw j) → flag_at TWINT hw k →
    twi_wait_loop fuel t hw = some (I2C_OK, after_polls (k + 1) hw) := by
  induction k with
  | zero =>
    intro fuel t hw hf _ _ hset
    obtain ⟨f, rfl⟩ : ∃ f, fuel = f + 1 := ⟨fuel - 1, by omega⟩
    rw [twi_wait_loop, if_pos ((flag_at_zero TWINT hw).1 hset)]
    rfl
  | succ k ih =>
    intro fuel t hw hf hk hclear hset
    obtain ⟨f, rfl⟩ : ∃ f, fuel = f + 1 := ⟨fuel - 1, by omega⟩
    have h0 : ¬ (TWCR_value hw &&& (1 <<< TWINT) ≠ 0) := fun h =>
      hclear 0 (Nat.succ_pos k) ((flag_at_zero TWINT hw).2 h)
    have hd : dec32 t ≠ 0 := by omega
    rw [twi_wait_loop, if_neg h0, if_neg hd]
    rw [ih f (dec32 t) (TWCR_next hw) (by omega) (by rw [dec32_dec32 t hd]; omega)
      (fun j hj => by rw [flag_at_next]; exact hclear (j + 1) (by omega))
      (by rw [flag_at_next]; exact hset), after_polls_next]

/-- The wait loop returns `I2C_TIMEOUT_ERR` after `dec32 t + 1` polls when all
of them see the flag clear and the fuel lasts. -/
theorem twi_wait_loop_timeout (n : Nat) : ∀ (fuel t : Nat) (hw : Hw), n < fuel → dec32 t = n →
    (∀ j, j ≤ n → ¬ flag_at TWINT hw j) →
    twi_wait_loop fuel t hw = some (I2C_TIMEOUT_ERR, after_polls (n + 1) hw) := by
  induction n with
  | zero =>
    intro fuel t hw hf ht hclear
    obtain ⟨f, rfl⟩ : ∃ f, fuel = f + 1 := ⟨fuel - 1, by omega⟩
    have h0 : ¬ (TWCR_value hw &&& (1 <<< TWINT) ≠ 0) := fun h =>
      hclear 0 (Nat.le_refl 0) ((flag_at_zero TWINT hw).2 h)
    rw [twi_wait_loop, if_neg h0, if_pos ht]
    rfl
  | succ n ih =>
    intro fuel t hw hf ht hclear
    obtain ⟨f, rfl⟩ : ∃ f, fuel = f + 1 := ⟨fuel - 1, by omega⟩
    have h0 : ¬ (TWCR_value hw &&& (1 <<< TWINT) ≠ 0) := fun h =>
      hclear 0 (Nat.zero_le _) ((flag_at_zero TWINT hw).2 h)
    have hd : dec32 t ≠ 0 := by omega
    rw [twi_wait_loop, if_neg h0, if_neg hd]
    rw [ih f (dec32 t) (TWCR_next hw) (by omega) (by rw [dec32_dec32 t hd]; omega)
      (fun j hj => by rw [flag_at_next]; exact hclear (j + 1) (by omega)), after_polls_next]

/-- Every run of the timeout guard returns.  It stops at some poll `k` (counted
from 0) no later than poll `dec32 t`, `t` being the initial counter; all earlier
polls saw the flag clear; and either poll `k` saw the flag and the result is
`I2C_OK`, or `k = dec32 t`, that poll saw the flag clear too and the result is
`I2C_TIMEOUT_ERR`.  Only `TWCR` reads happen. -/
theorem twi_wait_twint_spec (cfg : Config) (hw : Hw) :
    ∃ k, k ≤ dec32 (cfg.I2C_TIMEOUT % 4294967296) ∧ (∀ j, j < k → ¬ flag_at TWINT hw j) ∧
      ((flag_at TWINT hw k ∧
          twi_wait_twint cfg hw = some (I2C_OK, after_polls (k + 1) hw)) ∨
       (¬ flag_at TWINT hw k ∧ k = dec32 (cfg.I2C_TIMEOUT % 4294967296) ∧
          twi_wait_twint cfg hw = some (I2C_TIMEOUT_ERR, after_polls (k + 1) hw))) := by
  have hfuel := dec32_lt_fuel (cfg.I2C_TIMEOUT % 4294967296)
  unfold twi_wait_twint
  generalize cfg.I2C_TIMEOUT % 4294967296 = t at hfuel ⊢
  by_cases hex : ∃ k, k ≤ dec32 t ∧ flag_at TWINT hw k
  · have hk := Nat.find_spec hex
    have hmin : ∀ j, j < Nat.find hex → ¬ flag_at TWINT hw j :=
      fun j hj hset => Nat.find_min hex hj ⟨by omega, hset⟩
    exact ⟨Nat.find hex, hk.1, hmin,
      Or.inl ⟨hk.2, twi_wait_loop_ok (Nat.find hex) poll_fuel t hw (by omega) hk.1 hmin hk.2⟩⟩
  · have hall : ∀ j, j ≤ dec32 t → ¬ flag_at TWINT hw j := fun j hj hset => hex ⟨j, hj, hset⟩
    exact ⟨dec32 t, le_refl _, fun j hj => hall j (by omega),
      Or.inr ⟨hall _ (le_refl _), rfl,
        twi_wait_loop_timeout (dec32 t) poll_fuel t hw hfuel rfl hall⟩⟩

/-- The stop loop leaves at the first poll that sees `TWSTO` clear. -/
theorem i2c_stop_loop_clear (k : Nat) : ∀ (fuel t : Nat) (hw : Hw), k < fuel → k ≤ dec32 t →
    (∀ j, j < k → flag_at TWSTO hw j) → ¬ flag_at TWSTO hw k →
    i2c_stop_loop fuel t hw = some (after_polls (k + 1) hw) := by
  induction k with
  | zero =>
    intro fuel t hw hf _ _ hclr
    obtain ⟨f, rfl⟩ : ∃ f, fuel = f + 1 := ⟨fuel - 1, by omega⟩
    have h0 : ¬ (TWCR_value hw &&& (1 <<< TWSTO) ≠ 0) := fun h =>
      hclr ((flag_at_zero TWSTO hw).2 h)
    rw [i2c_stop_loop, if_neg h0]
    rfl
  | succ k ih =>
    intro fuel t hw hf hk hset hclr
    obtain ⟨f, rfl⟩ : ∃ f, fuel = f + 1 := ⟨fuel - 1, by omega⟩
    have h0 : TWCR_value hw &&& (1 <<< TWSTO) ≠ 0 :=
      (flag_at_zero TWSTO hw).1 (hset 0 (Nat.succ_pos k))
    have hd : dec32 t ≠ 0 := by omega
    rw [i2c_stop_loop, if_pos h0, if_pos hd]
    rw [ih f (dec32 t) (TWCR_next hw) (by omega) (by rw [dec32_dec32 t hd]; omega)
      (fun j hj => by rw [flag_at_next]; exact hset (j + 1) (by omega))
      (by rw [flag_at_next]; exact hclr), after_polls_next]

/-- The stop loop leaves after `dec32 t + 1` polls when all of them see `TWSTO` set. -/
theorem i2c_stop_loop_exhaust (n : Nat) : ∀ (fuel t : Nat) (hw : Hw), n < fuel → dec32 t = n →
    (∀ j, j ≤ n → flag_at TWSTO hw j) →
    i2c_stop_loop fuel t hw = some (after_polls (n + 1) hw) := by
  induction n with
  | zero =>
    intro fuel t hw hf ht hset
    obtain ⟨f, rfl⟩ : ∃ f, fuel = f + 1 := ⟨fuel - 1, by omega⟩
    have h0 : TWCR_value hw &&& (1 <<< TWSTO) ≠ 0 :=
      (flag_at_zero TWSTO hw).1 (hset 0 (Nat.le_refl 0))
    rw [i2c_stop_loop, if_pos h0, if_neg (by simpa using ht)]
    rfl
  | succ n ih =>
    intro fuel t hw hf ht hset
    obtain ⟨f, rfl⟩ : ∃ f, fuel = f + 1 := ⟨fuel - 1, by omega⟩
    have h0 : TWCR_value hw &&& (1 <<< TWSTO) ≠ 0 :=
      (flag_at_zero TWSTO hw).1 (hset 0 (Nat.zero_le _))
    have hd : dec32 t ≠ 0 := by omega
    rw [i2c_stop_loop, if_pos h0, if_pos hd]
    rw [ih f (dec32 t) (TWCR_next hw) (by omega) (by rw [dec32_dec32 t hd]; omega)
      (fun j hj => by rw [flag_at_next]; exact hset (j + 1) (by omega)), after_polls_next]

/-- Every run of `i2c_stop` returns: one write of `0x94` to `TWCR`, then polls
up to and including the first one, poll `k`, that sees `TWSTO` clear, or
`dec32 t + 1` polls that all see it set, `t` being the initial counter. -/
theorem i2c_stop_spec (cfg : Config) (hw : Hw) :
    ∃ k, k ≤ dec32 (cfg.I2C_TIMEOUT % 4294967296) ∧ (∀ j, j < k → flag_at TWSTO hw j) ∧
      (¬ flag_at TWSTO hw k ∨ k = dec32 (cfg.I2C_TIMEOUT % 4294967296)) ∧
      i2c_stop cfg hw = some (after_polls (k + 1) (reg_write Reg.TWCR 0x94 hw)) := by
  have hfuel := dec32_lt_fuel (cfg.I2C_TIMEOUT % 4294967296)
  unfold i2c_stop
  simp only [show (1 <<< TWINT ||| 1 <<< TWEN ||| 1 <<< TWSTO) = 0x94 from by decide]
  generalize cfg.I2C_TIMEOUT % 4294967296 = t at hfuel ⊢
  by_cases hex : ∃ k, k ≤ dec32 t ∧ ¬ flag_at TWSTO hw k
  · have hk := Nat.find_spec hex
    have hmin : ∀ j, j < Nat.find hex → flag_at TWSTO hw j := fun j hj => by
      by_contra hc
      exact Nat.find_min hex hj ⟨by omega, hc⟩
    exact ⟨Nat.find hex, hk.1, hmin, Or.inl hk.2,
      i2c_stop_loop_clear (Nat.find hex) poll_fuel t _ (by omega) hk.1
        (fun j hj => by rw [flag_at_reg_write]; exact hmin j hj)
        (by rw [flag_at_reg_write]; exact hk.2)⟩
  · have hall : ∀ j, j ≤ dec32 t → flag_at TWSTO hw j := fun j hj => by
      by_contra hc
      exact hex ⟨j, hj, hc⟩
    exact ⟨dec32 t, le_refl _, fun j hj => hall j (by omega), Or.inr rfl,
      i2c_stop_loop_exhaust (dec32 t) poll_fuel t _ hfuel rfl
        (fun j hj => by rw [flag_at_reg_write]; exact hall j hj)⟩

/-! ## Lemmas on the protocol steps -/

/-- When one of the first `I2C_TIMEOUT` polls sees the flag, the guard returns
`I2C_OK` after at most that many polls. -/
theorem twi_wait_twint_raised (cfg : Config) (hw : Hw) (h32 : cfg.I2C_TIMEOUT < 4294967296)
    (hflag : ∃ k, k < cfg.I2C_TIMEOUT ∧ flag_at TWINT hw k) :
    ∃ p, 1 ≤ p ∧ p ≤ cfg.I2C_TIMEOUT ∧
      twi_wait_twint cfg hw = some (I2C_OK, after_polls p hw) := by
  obtain ⟨k0, hk0, hset0⟩ := hflag
  have hd : dec32 (cfg.I2C_TIMEOUT % 4294967296) = cfg.I2C_TIMEOUT - 1 := by
    rw [Nat.mod_eq_of_lt h32]
    exact dec32_of_pos _ (by omega) h32
  obtain ⟨k, hk, hmin, hcase⟩ := twi_wait_twint_spec cfg hw
  rw [hd] at hk hcase
  rcases hcase with ⟨_, heq⟩ | ⟨hclr, hkN, _⟩
  · exact ⟨k + 1, by omega, by omega, heq⟩
  · exfalso
    by_cases h : k0 < k
    · exact hmin k0 h hset0
    · have hkk : k0 = k := by omega
      exact hclr (hkk ▸ hset0)

/-- When all of the first `I2C_TIMEOUT` polls see the flag clear, the guard
returns `I2C_TIMEOUT_ERR` after exactly that many polls. -/
theorem twi_wait_twint_never (cfg : Config) (hw : Hw) (h1 : 1 ≤ cfg.I2C_TIMEOUT)
    (h32 : cfg.I2C_TIMEOUT < 4294967296)
    (hclr : ∀ k, k < cfg.I2C_TIMEOUT → ¬ flag_at TWINT hw k) :
    twi_wait_twint cfg hw = some (I2C_TIMEOUT_ERR, after_polls cfg.I2C_TIMEOUT hw) := by
  have hd : dec32 (cfg.I2C_TIMEOUT % 4294967296) = cfg.I2C_TIMEOUT - 1 := by
    rw [Nat.mod_eq_of_lt h32]
    exact dec32_of_pos _ h1 h32
  obtain ⟨k, hk, hmin, hcase⟩ := twi_wait_twint_spec cfg hw
  rw [hd] at hk hcase
  rcases hcase with ⟨hset, _⟩ | ⟨_, hkN, heq⟩
  · exact absurd hset (hclr k (by omega))
  · rw [heq, hkN, Nat.sub_add_cancel h1]

/-- The guard returns `I2C_OK` or `I2C_TIMEOUT_ERR` and only reads `TWCR`. -/
theorem twi_wait_twint_cases (cfg : Config) (hw : Hw) :
    ∃ p, 1 ≤ p ∧ (twi_wait_twint cfg hw = some (I2C_OK, after_polls p hw) ∨
      twi_wait_twint cfg hw = some (I2C_TIMEOUT_ERR, after_polls p hw)) := by
  obtain ⟨k, _, _, hcase⟩ := twi_wait_twint_spec cfg hw
  rcases hcase with ⟨_, heq⟩ | ⟨_, _, heq⟩
  · exact ⟨k + 1, by omega, Or.inl heq⟩
  · exact ⟨k + 1, by omega, Or.inr heq⟩

theorem twi_status_lt (hw : Hw) : TWSR_value hw &&& TW_STATUS_MASK < 256 :=
  lt_of_le_of_lt Nat.and_le_right (by decide)

theorem twi_status_after (p : Nat) (r : Reg) (v : Nat) (hw : Hw) :
    twi_status (after_polls p (reg_write r v hw))
      = (TWSR_value hw &&& 0xF8, TWSR_next (after_polls p (reg_write r v hw))) := by
  have h : (TWSR_value hw &&& TW_STATUS_MASK) % 256 = TWSR_value hw &&& 0xF8 :=
    Nat.mod_eq_of_lt (twi_status_lt hw)
  simp only [twi_status, Prod.mk.injEq, and_true]
  exact h

/-- The start step when the flag is raised within the budget. -/
theorem twi_send_start_raised (cfg : Config) (allow : Nat) (hw : Hw)
    (h32 : cfg.I2C_TIMEOUT < 4294967296)
    (hflag : ∃ k, k < cfg.I2C_TIMEOUT ∧ flag_at TWINT hw k) :
    ∃ p, 1 ≤ p ∧ p ≤ cfg.I2C_TIMEOUT ∧ twi_send_start cfg allow hw =
      some (if TWSR_value hw &&& 0xF8 = 0x08 ∨ (allow ≠ 0 ∧ TWSR_value hw &&& 0xF8 = 0x10)
        then I2C_OK else I2C_ERROR,
       TWSR_next (after_polls p (reg_write Reg.TWCR 0xA4 hw))) := by
  obtain ⟨p, hp1, hpN, heq⟩ := twi_wait_twint_raised cfg (reg_write Reg.TWCR 0xA4 hw) h32
    (by simpa only [flag_at_reg_write] using hflag)
  refine ⟨p, hp1, hpN, ?_⟩
  unfold twi_send_start
  simp only [show (1 <<< TWINT ||| 1 <<< TWSTA ||| 1 <<< TWEN) = 0xA4 from by decide, heq,
    twi_status_after, TW_START, TW_REP_START, TW_MT_ARB_LOST, TW_BUS_ERROR]
  split_ifs <;> simp_all

/-- The address step when the flag is raised within the budget. -/
theorem twi_send_sla_raised (cfg : Config) (b ack nack : Nat) (hw : Hw)
    (h32 : cfg.I2C_TIMEOUT < 4294967296)
    (hflag : ∃ k, k < cfg.I2C_TIMEOUT ∧ flag_at TWINT hw k) :
    ∃ p, 1 ≤ p ∧ p ≤ cfg.I2C_TIMEOUT ∧ twi_send_sla cfg b ack nack hw =
      some (if TWSR_value hw &&& 0xF8 = ack then I2C_OK
        else if TWSR_value hw &&& 0xF8 = nack then I2C_NACK else I2C_ERROR,
       TWSR_next (after_polls p (reg_write Reg.TWCR 0x84 (reg_write Reg.TWDR b hw)))) := by
  obtain ⟨p, hp1, hpN, heq⟩ := twi_wait_twint_raised cfg
    (reg_write Reg.TWCR 0x84 (reg_write Reg.TWDR b hw)) h32
    (by simpa only [flag_at_reg_write] using hflag)
  refine ⟨p, hp1, hpN, ?_⟩
  have hst : twi_status (after_polls p (reg_write Reg.TWCR 0x84 (reg_write Reg.TWDR b hw)))
      = (TWSR_value hw &&& 0xF8,
          TWSR_next (after_polls p (reg_write Reg.TWCR 0x84 (reg_write Reg.TWDR b hw)))) :=
    twi_status_after p Reg.TWCR 0x84 (reg_write Reg.TWDR b hw)
  unfold twi_send_sla
  simp only [show (1 <<< TWINT ||| 1 <<< TWEN) = 0x84 from by decide, heq,
    hst, TW_MT_ARB_LOST, TW_BUS_ERROR]
  split_ifs <;> simp_all

/-- The start step on any hardware: one write of `0xA4` to `TWCR`, then polls,
then either a timeout or one status read with result `I2C_OK` or `I2C_ERROR`. -/
theorem twi_send_start_shape (cfg : Config) (allow : Nat) (hw : Hw) :
    ∃ p, 1 ≤ p ∧
      (twi_send_start cfg allow hw =
          some (I2C_TIMEOUT_ERR, after_polls p (reg_write Reg.TWCR 0xA4 hw)) ∨
       twi_send_start cfg allow hw =
          some (I2C_OK, TWSR_next (after_polls p (reg_write Reg.TWCR 0xA4 hw))) ∨
       twi_send_start cfg allow hw =
          some (I2C_ERROR, TWSR_next (after_polls p (reg_write Reg.TWCR 0xA4 hw)))) := by
  obtain ⟨p, hp1, heq⟩ := twi_wait_twint_cases cfg (reg_write Reg.TWCR 0xA4 hw)
  refine ⟨p, hp1, ?_⟩
  unfold twi_send_start
  rcases heq with heq | heq
  · simp only [show (1 <<< TWINT ||| 1 <<< TWSTA ||| 1 <<< TWEN) = 0xA4 from by decide, heq,
      twi_status_after]
    split_ifs <;> simp_all
  · simp only [show (1 <<< TWINT ||| 1 <<< TWSTA ||| 1 <<< TWEN) = 0xA4 from by decide, heq]
    simp

/-- The address step on any hardware: one write of the byte to `TWDR`, one write
of `0x84` to `TWCR`, then polls, then either a timeout or one status read. -/
theorem twi_send_sla_shape (cfg : Config) (b ack nack : Nat) (hw : Hw) :
    ∃ p st, 1 ≤ p ∧
      (twi_send_sla cfg b ack nack hw =
          some (I2C_TIMEOUT_ERR,
            after_polls p (reg_write Reg.TWCR 0x84 (reg_write Reg.TWDR b hw))) ∨
       twi_send_sla cfg b ack nack hw =
          some (st, TWSR_next
            (after_polls p (reg_write Reg.TWCR 0x84 (reg_write Reg.TWDR b hw))))) := by
  obtain ⟨p, hp1, heq⟩ := twi_wait_twint_cases cfg
    (reg_write Reg.TWCR 0x84 (reg_write Reg.TWDR b hw))
  have hst : twi_status (after_polls p (reg_write Reg.TWCR 0x84 (reg_write Reg.TWDR b hw)))
      = (TWSR_value hw &&& 0xF8,
          TWSR_next (after_polls p (reg_write Reg.TWCR 0x84 (reg_write Reg.TWDR b hw)))) :=
    twi_status_after p Reg.TWCR 0x84 (reg_write Reg.TWDR b hw)
  rcases heq with heq | heq
  · refine ⟨p, if TWSR_value hw &&& 0xF8 = ack then I2C_OK
        else if TWSR_value hw &&& 0xF8 = nack then I2C_NACK else I2C_ERROR, hp1, Or.inr ?_⟩
    unfold twi_send_sla
    simp only [show (1 <<< TWINT ||| 1 <<< TWEN) = 0x84 from by decide, heq, hst,
      TW_MT_ARB_LOST, TW_BUS_ERROR]
    split_ifs <;> simp_all
  · refine ⟨p, I2C_OK, hp1, Or.inl ?_⟩
    unfold twi_send_sla
    simp only [show (1 <<< TWINT ||| 1 <<< TWEN) = 0x84 from by decide, heq]
    simp

theorem twi_send_start_writes (cfg : Config) (allow : Nat) (hw : Hw) (st : i2c_status_t)
    (hw1 : Hw) (h : twi_send_start cfg allow hw = some (st, hw1)) :
    hw1.writes = (Reg.TWCR, 0xA4) :: hw.writes := by
  obtain ⟨p, _, e | e | e⟩ := twi_send_start_shape cfg allow hw <;>
    rw [e] at h <;> cases h <;> rfl

theorem twi_send_sla_writes (cfg : Config) (b ack nack : Nat) (hw : Hw) (st : i2c_status_t)
    (hw1 : Hw) (h : twi_send_sla cfg b ack nack hw = some (st, hw1)) :
    hw1.writes = (Reg.TWCR, 0x84) :: (Reg.TWDR, b % 256) :: hw.writes := by
  obtain ⟨p, st1, _, e | e⟩ := twi_send_sla_shape cfg b ack nack hw <;>
    rw [e] at h <;> cases h <;> rfl

theorem twi_send_start_total (cfg : Config) (allow : Nat) (hw : Hw) :
    ∃ st hw1, twi_send_start cfg allow hw = some (st, hw1) := by
  obtain ⟨p, _, e | e | e⟩ := twi_send_start_shape cfg allow hw <;> exact ⟨_, _, e⟩

theorem twi_send_sla_total (cfg : Config) (b ack nack : Nat) (hw : Hw) :
    ∃ st hw1, twi_send_sla cfg b ack nack hw = some (st, hw1) := by
  obtain ⟨p, st1, _, e | e⟩ := twi_send_sla_shape cfg b ack nack hw <;> exact ⟨_, _, e⟩

theorem i2c_stop_writes (cfg : Config) (hw hw1 : Hw) (h : i2c_stop cfg hw = some hw1) :
    hw1.writes = (Reg.TWCR, 0x94) :: hw.writes := by
  obtain ⟨k, _, _, _, e⟩ := i2c_stop_spec cfg hw
  rw [e] at h
  cases h
  rfl

theorem i2c_start_write_eq (cfg : Config) (a : Nat) (hw : Hw) (r : i2c_status_t × Hw)
    (h : twi_send_start cfg 0 hw = some r) :
    i2c_start_write cfg a hw = if r.1 ≠ I2C_OK then some r
      else twi_send_sla cfg (sla_byte a 0) 0x18 0x20 r.2 := by
  simp only [i2c_start_write, h, TW_MT_SLA_ACK, TW_MT_SLA_NACK]

theorem i2c_start_read_eq (cfg : Config) (a : Nat) (hw : Hw) (r : i2c_status_t × Hw)
    (h : twi_send_start cfg 0 hw = some r) :
    i2c_start_read cfg a hw = if r.1 ≠ I2C_OK then some r
      else twi_send_sla cfg (sla_byte a 1) 0x40 0x48 r.2 := by
  simp only [i2c_start_read, h, TW_MR_SLA_ACK, TW_MR_SLA_NACK]

theorem i2c_restart_write_eq (cfg : Config) (a : Nat) (hw : Hw) (r : i2c_status_t × Hw)
    (h : twi_send_start cfg 1 hw = some r) :
    i2c_restart_write cfg a hw = if r.1 ≠ I2C_OK then some r
      else twi_send_sla cfg (sla_byte a 0) 0x18 0x20 r.2 := by
  simp only [i2c_restart_write, h, TW_MT_SLA_ACK, TW_MT_SLA_NACK]

theorem i2c_restart_read_eq (cfg : Config) (a : Nat) (hw : Hw) (r : i2c_status_t × Hw)
    (h : twi_send_start cfg 1 hw = some r) :
    i2c_restart_read cfg a hw = if r.1 ≠ I2C_OK then some r
      else twi_send_sla cfg (sla_byte a 1) 0x40 0x48 r.2 := by
  simp only [i2c_restart_read, h, TW_MR_SLA_ACK, TW_MR_SLA_NACK]

/-- A public start or restart function `F` (start step with `allow`, then the
address step with `b`, `ack`, `nack`) returns, and either the start step failed,
`F` returns its result and the only write is the start trigger, or the start
step succeeded, `F` returns the result of the address step and the writes are
the start trigger, the address byte and the transmit trigger. -/
theorem start_sla_shape (cfg : Config) (allow b ack nack : Nat) (hw : Hw)
    (F : Option (i2c_status_t × Hw))
    (hdef : ∀ r, twi_send_start cfg allow hw = some r →
      F = if r.1 ≠ I2C_OK then some r else twi_send_sla cfg b ack nack r.2) :
    ∃ st hw1, F = some (st, hw1) ∧
      ((st ≠ I2C_OK ∧ twi_send_start cfg allow hw = some (st, hw1) ∧
          hw1.writes = (Reg.TWCR, 0xA4) :: hw.writes) ∨
       (∃ hw0, twi_send_start cfg allow hw = some (I2C_OK, hw0) ∧
          twi_send_sla cfg b ack nack hw0 = some (st, hw1) ∧
          hw1.writes = (Reg.TWCR, 0x84) :: (Reg.TWDR, b % 256) :: (Reg.TWCR, 0xA4) :: hw.writes)) := by
  obtain ⟨st0, hw0, h0⟩ := twi_send_start_total cfg allow hw
  have hF := hdef (st0, hw0) h0
  have hw0w := twi_send_start_writes cfg allow hw st0 hw0 h0
  by_cases hok : st0 = I2C_OK
  · subst hok
    obtain ⟨st, hw1, h1⟩ := twi_send_sla_total cfg b ack nack hw0
    have hw1w := twi_send_sla_writes cfg b ack nack hw0 st hw1 h1
    refine ⟨st, hw1, ?_, Or.inr ⟨hw0, h0, h1, by rw [hw1w, hw0w]⟩⟩
    rw [hF, if_neg (by simp), h1]
  · refine ⟨st0, hw0, ?_, Or.inl ⟨hok, h0, hw0w⟩⟩
    rw [hF, if_pos hok]

/-- The most recent write to `r` is in the log. -/
theorem last_write_mem (r : Reg) (v : Nat) : ∀ log : List (Reg × Nat),
    last_write r log = some v → (r, v) ∈ log := by
  intro log
  induction log with
  | nil => intro h; simp [last_write] at h
  | cons e es ih =>
    obtain ⟨r1, v1⟩ := e
    by_cases hr : r1 = r
    · intro h
      simp only [last_write, hr, if_true, Option.some.injEq] at h
      rw [hr, h]
      exact List.mem_cons_self _ _
    · intro h
      simp only [last_write, hr, if_false] at h
      exact List.mem_cons_of_mem _ (ih h)

/-- A most recent write in the newer part of a log is the most recent of the whole. -/
theorem last_write_append (r : Reg) (v : Nat) (old : List (Reg × Nat)) :
    ∀ new : List (Reg × Nat), last_write r new = some v →
      last_write r (new ++ old) = some v := by
  intro new
  induction new with
  | nil => intro h; simp [last_write] at h
  | cons e es ih =>
    obtain ⟨r1, v1⟩ := e
    by_cases hr : r1 = r
    · intro h
      simp only [last_write, hr, if_true, List.cons_append] at h ⊢
      exact h
    · intro h
      simp only [last_write, hr, if_false, List.cons_append] at h ⊢
      exact ih h

theorem twen_set_A4 : (0xA4 : Nat) &&& (1 <<< TWEN) ≠ 0 := by decide

theorem twen_set_84 : (0x84 : Nat) &&& (1 <<< TWEN) ≠ 0 := by decide

theorem twen_set_94 : (0x94 : Nat) &&& (1 <<< TWEN) ≠ 0 := by decide

theorem twen_set_04 : (0x04 : Nat) &&& (1 <<< TWEN) ≠ 0 := by decide

/-- The two write blocks a public start or restart function can produce hold
only `TWCR` values with `TWEN` set. -/
theorem start_blocks_twen (b u : Nat) :
    ((Reg.TWCR, u) ∈ [(Reg.TWCR, 0xA4)] → u &&& (1 <<< TWEN) ≠ 0) ∧
    ((Reg.TWCR, u) ∈ [(Reg.TWCR, 0x84), (Reg.TWDR, b), (Reg.TWCR, 0xA4)] →
      u &&& (1 <<< TWEN) ≠ 0) := by
  constructor
  · intro hu
    simp only [List.mem_singleton, Prod.mk.injEq, true_and] at hu
    rw [hu]
    exact twen_set_A4
  · intro hu
    simp only [List.mem_cons, Prod.mk.injEq, true_and, false_and, false_or,
      List.mem_singleton, reduceCtorEq, List.not_mem_nil, or_false] at hu
    rcases hu with hu | hu
    · rw [hu]
      exact twen_set_84
    · rw [hu]
      exact twen_set_A4

/-- Every call returns and prepends to the write log a block that starts with a
`TWCR` write and whose `TWCR` writes all have `TWEN` set. -/
theorem run_call_writes (cfg : Config) (c : Call) (hw : Hw) :
    ∃ hw1 v rest, run_call cfg c hw = some hw1 ∧
      hw1.writes = ((Reg.TWCR, v) :: rest) ++ hw.writes ∧
      ∀ u, (Reg.TWCR, u) ∈ (Reg.TWCR, v) :: rest → u &&& (1 <<< TWEN) ≠ 0 := by
  have key : ∀ (allow b ack nack : Nat) (F : Option (i2c_status_t × Hw)),
      (∀ r, twi_send_start cfg allow hw = some r →
        F = if r.1 ≠ I2C_OK then some r else twi_send_sla cfg b ack nack r.2) →
      ∃ hw1 v rest, F.map Prod.snd = some hw1 ∧
        hw1.writes = ((Reg.TWCR, v) :: rest) ++ hw.writes ∧
        ∀ u, (Reg.TWCR, u) ∈ (Reg.TWCR, v) :: rest → u &&& (1 <<< TWEN) ≠ 0 := by
    intro allow b ack nack F hdef
    obtain ⟨st, hw1, hF, h | ⟨hw0, _, _, h⟩⟩ := start_sla_shape cfg allow b ack nack hw F hdef
    · exact ⟨hw1, 0xA4, [], by rw [hF]; rfl, by rw [h.2.2]; rfl,
        fun u => (start_blocks_twen 0 u).1⟩
    · exact ⟨hw1, 0x84, [(Reg.TWDR, b % 256), (Reg.TWCR, 0xA4)], by rw [hF]; rfl,
        by rw [h]; rfl, fun u => (start_blocks_twen (b % 256) u).2⟩
  cases c with
  | start_write a => exact key 0 _ _ _ _ (i2c_start_write_eq cfg a hw)
  | start_read a => exact key 0 _ _ _ _ (i2c_start_read_eq cfg a hw)
  | restart_write a => exact key 1 _ _ _ _ (i2c_restart_write_eq cfg a hw)
  | restart_read a => exact key 1 _ _ _ _ (i2c_restart_read_eq cfg a hw)
  | stop =>
    obtain ⟨k, _, _, _, e⟩ := i2c_stop_spec cfg hw
    refine ⟨_, 0x94, [], e, rfl, ?_⟩
    intro u hu
    simp only [List.mem_singleton, Prod.mk.injEq, true_and] at hu
    rw [hu]
    exact twen_set_94

/-- A sequence of calls returns and prepends to the write log a block whose
`TWCR` writes all have `TWEN` set; a non-empty sequence makes such a write. -/
theorem run_calls_writes (cfg : Config) (cs : List Call) : ∀ hw : Hw,
    ∃ hwf new, run_calls cfg cs hw = some hwf ∧ hwf.writes = new ++ hw.writes ∧
      (∀ u, (Reg.TWCR, u) ∈ new → u &&& (1 <<< TWEN) ≠ 0) ∧
      (cs = [] → new = []) ∧
      (cs ≠ [] → ∃ v, last_write Reg.TWCR new = some v) := by
  induction cs with
  | nil =>
    intro hw
    exact ⟨hw, [], rfl, rfl, fun u hu => absurd hu (List.not_mem_nil _), fun _ => rfl,
      fun h => absurd rfl h⟩
  | cons c cs ih =>
    intro hw
    obtain ⟨hw1, v, rest, hc, hw1w, hbit⟩ := run_call_writes cfg c hw
    obtain ⟨hwf, new, hn, hfw, hnbit, hnil, hlast⟩ := ih hw1
    refine ⟨hwf, new ++ ((Reg.TWCR, v) :: rest), ?_, ?_, ?_, fun h => absurd h (by simp), fun _ => ?_⟩
    · simp only [run_calls, hc]
      exact hn
    · rw [hfw, hw1w, List.append_assoc]
    · intro u hu
      rcases List.mem_append.1 hu with h | h
      · exact hnbit u h
      · exact hbit u h
    · by_cases hcs : cs = []
      · rw [hnil hcs]
        exact ⟨v, by simp [last_write]⟩
      · obtain ⟨w, hw2⟩ := hlast hcs
        exact ⟨w, last_write_append Reg.TWCR w _ new hw2⟩

theorem shl_or (a rw : Nat) (hrw : rw < 2) : (a <<< 1) ||| rw = 2 * a + rw := by
  rw [Nat.shiftLeft_eq, Nat.mul_comm, pow_one]
  exact (Nat.mul_add_lt_is_or (i := 1) (by simpa using hrw) a).symm

/-- For a 7-bit address the address byte is `2 * addr7 + rw`, below 256. -/
theorem sla_byte_eq (addr7 rw : Nat) (ha : addr7 ≤ 127) (hrw : rw < 2) :
    sla_byte addr7 rw = 2 * addr7 + rw := by
  unfold sla_byte
  rw [Nat.mod_eq_of_lt (by omega : addr7 < 256), shl_or addr7 rw hrw]
  exact Nat.mod_eq_of_lt (by omega)

theorem i2c_init_writes (cfg : Config) (hw : Hw) :
    (i2c_init cfg hw).writes
      = (Reg.TWCR, 0x04) :: (Reg.TWBR, i2c_init_twbr cfg % 256) :: (Reg.TWSR, 0x00) :: hw.writes := by
  simp [i2c_init, reg_write, TWEN]

/-! ## Lemmas on the orchestrator model -/

theorem bus_step_fields (b : Bus) (p : Prim) :
    (b.step p).1 = b.outcome b.steps ∧ (b.step p).2.steps = b.steps + 1 ∧
    (b.step p).2.issued = p :: b.issued ∧ (b.step p).2.outcome = b.outcome :=
  ⟨rfl, rfl, rfl, rfl⟩

/-- A run that meets its first non-Ok outcome at sub-step `k` returns that
outcome, having issued the first `k + 1` sub-steps of the plan. -/
theorem run_steps_fail (plan : List Prim) : ∀ (b : Bus) (k : Nat), k < plan.length →
    (∀ j, j < k → b.outcome (b.steps + j) = I2C_OK) → b.outcome (b.steps + k) ≠ I2C_OK →
    (run_steps b plan).1 = b.outcome (b.steps + k) ∧
    (run_steps b plan).2.steps = b.steps + k + 1 ∧
    (run_steps b plan).2.issued = (plan.take (k + 1)).reverse ++ b.issued ∧
    (run_steps b plan).2.outcome = b.outcome := by
  induction plan with
  | nil => intro b k hk; exact absurd hk (Nat.not_lt_zero k)
  | cons p ps ih =>
    intro b k hk hok hbad
    obtain ⟨f1, f2, f3, f4⟩ := bus_step_fields b p
    cases k with
    | zero =>
      have hne : (b.step p).1 ≠ I2C_OK := by rw [f1]; exact hbad
      simp only [run_steps, hne, ne_eq, not_false_eq_true, if_true]
      exact ⟨f1, f2, by rw [f3]; rfl, f4⟩
    | succ k =>
      have h0 : (b.step p).1 = I2C_OK := by
        rw [f1]
        exact hok 0 (Nat.succ_pos k)
      have hrec := ih (b.step p).2 k (Nat.lt_of_succ_lt_succ hk)
        (fun j hj => by
          rw [f4, f2, Nat.add_assoc, Nat.add_comm 1 j]
          exact hok (j + 1) (by omega))
        (by
          rw [f4, f2, Nat.add_assoc, Nat.add_comm 1 k]
          exact hbad)
      simp only [run_steps, h0, ne_eq, not_true_eq_false, if_false]
      obtain ⟨r1, r2, r3, r4⟩ := hrec
      refine ⟨?_, ?_, ?_, ?_⟩
      · rw [r1, f4, f2, Nat.add_assoc, Nat.add_comm 1 k]
      · rw [r2, f2]
        omega
      · rw [r3, f3]
        simp
      · rw [r4, f4]

/-- A run in which every sub-step of the plan succeeds returns `I2C_OK`, having
issued the whole plan. -/
theorem run_steps_ok (plan : List Prim) : ∀ (b : Bus),
    (∀ j, j < plan.length → b.outcome (b.steps + j) = I2C_OK) →
    (run_steps b plan).1 = I2C_OK ∧
    (run_steps b plan).2.steps = b.steps + plan.length ∧
    (run_steps b plan).2.issued = plan.reverse ++ b.issued := by
  induction plan with
  | nil => intro b _; exact ⟨rfl, rfl, rfl⟩
  | cons p ps ih =>
    intro b hok
    obtain ⟨f1, f2, f3, f4⟩ := bus_step_fields b p
    have h0 : (b.step p).1 = I2C_OK := by
      rw [f1]
      exact hok 0 (Nat.succ_pos _)
    have hrec := ih (b.step p).2 (fun j hj => by
      rw [f4, f2, Nat.add_assoc, Nat.add_comm 1 j]
      exact hok (j + 1) (by simp only [List.length_cons]; omega))
    simp only [run_steps, h0, ne_eq, not_true_eq_false, if_false]
    obtain ⟨r1, r2, r3⟩ := hrec
    refine ⟨r1, ?_, ?_⟩
    · rw [r2, f2, List.length_cons]
      omega
    · rw [r3, f3]
      simp

/-- Whatever the outcomes, a run issues an initial part of its plan and nothing else. -/
theorem run_steps_issued (plan : List Prim) : ∀ (b : Bus),
    ∃ n, n ≤ plan.length ∧ (run_steps b plan).2.issued = (plan.take n).reverse ++ b.issued := by
  induction plan with
  | nil => intro b; exact ⟨0, le_refl _, rfl⟩
  | cons p ps ih =>
    intro b
    obtain ⟨f1, f2, f3, f4⟩ := bus_step_fields b p
    by_cases h0 : (b.step p).1 = I2C_OK
    · obtain ⟨n, hn, hi⟩ := ih (b.step p).2
      refine ⟨n + 1, by simp only [List.length_cons]; omega, ?_⟩
      simp only [run_steps, h0, ne_eq, not_true_eq_false, if_false]
      rw [hi, f3]
      simp
    · refine ⟨1, by simp only [List.length_cons]; omega, ?_⟩
      simp only [run_steps, h0, ne_eq, not_false_eq_true, if_true]
      rw [f3]
      rfl

theorem read_phase_length (len : Nat) : (read_phase len).length = len := by
  unfold read_phase
  split_ifs with h
  · rw [h]
    rfl
  · simp only [List.length_append, List.length_replicate, List.length_singleton]
    omega

theorem stop_not_in_write_plan (addr7 reg : Nat) (data : List Nat) (len : Nat) :
    Prim.stop ∉ [Prim.start, Prim.address (sla_byte addr7 0), Prim.send (reg % 256)] ++
      (List.range len).map (fun i => Prim.send (data.getD i 0)) := by
  simp

theorem stop_not_in_read_plan (addr7 reg len : Nat) :
    Prim.stop ∉ [Prim.start, Prim.address (sla_byte addr7 0), Prim.send (reg % 256),
      Prim.repeated_start, Prim.address (sla_byte addr7 1)] ++ read_phase len := by
  unfold read_phase
  split_ifs <;> simp [List.mem_replicate]

/-- The hardware `hw_silent` never shows the completion flag. -/
theorem hw_silent_never (k : Nat) : ¬ flag_at TWINT hw_silent k := by
  intro h
  simp only [flag_at, hw_silent, TWINT] at h
  exact h (by decide)

/-! ## Lemmas on the baud-rate computation -/

/-- The 32-bit product `div * baud` is zero exactly when `baud` is a multiple of
`2^32 / div`: of `2^29` in double-speed mode, of `2^28` otherwise. -/
theorem uart0_divisor_eq_zero_iff (baud : Nat) (u2x : Bool) (h32 : baud < 4294967296) :
    uart0_divisor baud u2x = 0 ↔ baud % (if u2x then 536870912 else 268435456) = 0 := by
  unfold uart0_divisor
  rw [Nat.mod_eq_of_lt h32]
  cases u2x
  · simp only [Bool.false_eq_true, if_false]
    omega
  · simp only [if_true]
    omega

/-- `uart0_calc_ubrr` runs into the division by zero exactly when `baud` is a
nonzero multiple of `2^32 / div`. -/
theorem uart0_calc_ubrr_eq_none_iff (F_CPU baud : Nat) (u2x : Bool) (h32 : baud < 4294967296) :
    uart0_calc_ubrr F_CPU baud u2x = none ↔
      baud ≠ 0 ∧ baud % (if u2x then 536870912 else 268435456) = 0 := by
  have hz := uart0_divisor_eq_zero_iff baud u2x h32
  unfold uart0_calc_ubrr
  rw [Nat.mod_eq_of_lt h32]
  by_cases hb : baud = 0
  · simp [hb]
  · by_cases hd : uart0_divisor baud u2x = 0
    · simp only [hb, hd, if_false, if_true, true_iff]
      exact ⟨hb, hz.1 hd⟩
    · simp only [hb, hd, if_false]
      constructor
      · intro h
        cases h
      · intro h
        exact absurd (hz.2 h.2) hd

/-- `uart0_init` runs into the division by zero exactly when `uart0_calc_ubrr` does. -/
theorem uart0_init_eq_none_iff (F_CPU : Nat) (c : uart0_config_t) (r : UartRegs) :
    uart0_init F_CPU (some c) r = none ↔
      c.baud % 4294967296 ≠ 0 ∧ uart0_calc_ubrr F_CPU c.baud c.use_u2x = none := by
  by_cases hb : c.baud % 4294967296 = 0
  · simp [uart0_init, hb]
  · cases hu : uart0_calc_ubrr F_CPU c.baud c.use_u2x with
    | none => simp [uart0_init, hb, hu]
    | some ubrr =>
      simp only [uart0_init, hb, hu, if_false, ne_eq, not_false_eq_true, true_and]
      constructor
      · intro h
        split_ifs at h
      · intro h
        cases h

/-! ## Timeout guard -/

/-- C2: for a budget `N = I2C_TIMEOUT` with `1 ≤ N` (a `uint32_t`, so `N < 2^32`)
and any stream of `TWCR` observations, `twi_wait_twint` returns after `p` polls
and nothing else, with `1 ≤ p ≤ N`; the result is `I2C_OK` exactly when one of
the first `N` polls sees `TWINT` set and `I2C_TIMEOUT_ERR` exactly when all of
the first `N` polls see it clear; with `N = 1` it polls exactly once. -/
theorem twi_wait_twint_within_budget (cfg : Config) (hw : Hw)
    (h1 : 1 ≤ cfg.I2C_TIMEOUT) (h32 : cfg.I2C_TIMEOUT < 4294967296) :
    ∃ st p, twi_wait_twint cfg hw = some (st, after_polls p hw) ∧
      1 ≤ p ∧ p ≤ cfg.I2C_TIMEOUT ∧
      (st = I2C_OK ↔ ∃ k, k < cfg.I2C_TIMEOUT ∧ flag_at TWINT hw k) ∧
      (st = I2C_TIMEOUT_ERR ↔ ∀ k, k < cfg.I2C_TIMEOUT → ¬ flag_at TWINT hw k) ∧
      (cfg.I2C_TIMEOUT = 1 → p = 1) := by
  have hd : dec32 (cfg.I2C_TIMEOUT % 4294967296) = cfg.I2C_TIMEOUT - 1 := by
    rw [Nat.mod_eq_of_lt h32]
    exact dec32_of_pos _ h1 h32
  obtain ⟨k, hk, hmin, hcase⟩ := twi_wait_twint_spec cfg hw
  rw [hd] at hk hcase
  rcases hcase with ⟨hset, heq⟩ | ⟨hclr, hkN, heq⟩
  · refine ⟨I2C_OK, k + 1, heq, by omega, by omega, ⟨fun _ => ⟨k, by omega, hset⟩, fun _ => rfl⟩,
      ⟨fun h => i2c_status_t.noConfusion h, fun h => ?_⟩, fun _ => by omega⟩
    exact absurd hset (h k (by omega))
  · have hall : ∀ j, j < cfg.I2C_TIMEOUT → ¬ flag_at TWINT hw j := by
      intro j hj
      by_cases hjk : j < k
      · exact hmin j hjk
      · have hjeq : j = k := by omega
        rw [hjeq]
        exact hclr
    exact ⟨I2C_TIMEOUT_ERR, k + 1, heq, by omega, by omega,
      ⟨fun h => i2c_status_t.noConfusion h, fun ⟨j, hj, hset⟩ => absurd hset (hall j hj)⟩,
      ⟨fun _ => hall, fun _ => rfl⟩, fun _ => by omega⟩

/-- Witness for C2: the default budget 60000 on hardware whose flag is always set. -/
theorem twi_wait_twint_within_budget_witness :
    1 ≤ defaults.I2C_TIMEOUT ∧ defaults.I2C_TIMEOUT < 4294967296 ∧
    ∃ st p, twi_wait_twint defaults hw_ready = some (st, after_polls p hw_ready) ∧
      1 ≤ p ∧ p ≤ defaults.I2C_TIMEOUT ∧
      (st = I2C_OK ↔ ∃ k, k < defaults.I2C_TIMEOUT ∧ flag_at TWINT hw_ready k) ∧
      (st = I2C_TIMEOUT_ERR ↔ ∀ k, k < defaults.I2C_TIMEOUT → ¬ flag_at TWINT hw_ready k) ∧
      (defaults.I2C_TIMEOUT = 1 → p = 1) :=
  ⟨by decide, by decide,
    twi_wait_twint_within_budget defaults hw_ready (by decide) (by decide)⟩

/-- C3, as stated, fails: with `I2C_TIMEOUT` overridden to 0 and the flag already
set, `twi_wait_twint` polls the flag once and returns `I2C_OK`; it does not
return `I2C_TIMEOUT_ERR` with the hardware state untouched (no poll made). -/
theorem twi_wait_twint_budget_zero_polls :
    (with_timeout 0).I2C_TIMEOUT = 0 ∧
    twi_wait_twint (with_timeout 0) hw_ready = some (I2C_OK, after_polls 1 hw_ready) ∧
    (after_polls 1 hw_ready).twcr_reads = hw_ready.twcr_reads + 1 ∧
    twi_wait_twint (with_timeout 0) hw_ready ≠ some (I2C_TIMEOUT_ERR, hw_ready) := by
  have h : twi_wait_twint (with_timeout 0) hw_ready = some (I2C_OK, after_polls 1 hw_ready) :=
    rfl
  refine ⟨rfl, h, rfl, ?_⟩
  rw [h]
  intro hc
  cases hc

/-- C3 amended: with budget 0 the flag is still polled before the counter is
looked at.  `twi_wait_twint` returns after `p` polls and nothing else, with
`1 ≤ p ≤ 2^32`; it returns `I2C_OK` at the first poll that sees `TWINT` set
(after a single poll when the flag is already set), every earlier poll having
seen it clear; and it returns `I2C_TIMEOUT_ERR` only when every poll it made
saw the flag clear. -/
theorem twi_wait_twint_budget_zero (cfg : Config) (hw : Hw) (h0 : cfg.I2C_TIMEOUT = 0) :
    ∃ st p, twi_wait_twint cfg hw = some (st, after_polls p hw) ∧
      1 ≤ p ∧ p ≤ 4294967296 ∧
      (flag_at TWINT hw 0 → st = I2C_OK ∧ p = 1) ∧
      (st = I2C_OK → flag_at TWINT hw (p - 1) ∧ ∀ j, j + 1 < p → ¬ flag_at TWINT hw j) ∧
      (st = I2C_TIMEOUT_ERR → ∀ j, j < p → ¬ flag_at TWINT hw j) ∧
      (st = I2C_OK ∨ st = I2C_TIMEOUT_ERR) := by
  obtain ⟨k, hk, hmin, hcase⟩ := twi_wait_twint_spec cfg hw
  have hk32 : k + 1 ≤ 4294967296 := by
    rw [h0] at hk
    exact Nat.succ_le_succ hk
  rcases hcase with ⟨hset, heq⟩ | ⟨hclr, _, heq⟩
  · refine ⟨I2C_OK, k + 1, heq, by omega, hk32, fun hz => ⟨rfl, ?_⟩,
      fun _ => ⟨hset, fun j hj => hmin j (by omega)⟩,
      fun h => i2c_status_t.noConfusion h, Or.inl rfl⟩
    by_contra hne
    exact hmin 0 (by omega) hz
  · have hall : ∀ j, j < k + 1 → ¬ flag_at TWINT hw j := by
      intro j hj
      by_cases hjk : j < k
      · exact hmin j hjk
      · have hjeq : j = k := by omega
        rw [hjeq]
        exact hclr
    exact ⟨I2C_TIMEOUT_ERR, k + 1, heq, by omega, hk32,
      fun hz => absurd hz (hall 0 (by omega)),
      fun h => i2c_status_t.noConfusion h, fun _ => hall, Or.inr rfl⟩

/-- Witness for the amended C3: budget 0 on hardware whose flag is always set. -/
theorem twi_wait_twint_budget_zero_witness :
    (with_timeout 0).I2C_TIMEOUT = 0 ∧
    ∃ st p, twi_wait_twint (with_timeout 0) hw_ready = some (st, after_polls p hw_ready) ∧
      1 ≤ p ∧ p ≤ 4294967296 ∧
      (flag_at TWINT hw_ready 0 → st = I2C_OK ∧ p = 1) ∧
      (st = I2C_OK → flag_at TWINT hw_ready (p - 1) ∧
        ∀ j, j + 1 < p → ¬ flag_at TWINT hw_ready j) ∧
      (st = I2C_TIMEOUT_ERR → ∀ j, j < p → ¬ flag_at TWINT hw_ready j) ∧
      (st = I2C_OK ∨ st = I2C_TIMEOUT_ERR) :=
  ⟨rfl, twi_wait_twint_budget_zero (with_timeout 0) hw_ready rfl⟩

/-! ## Address phase -/

/-- C1: for every address `addr7` (in particular `addr7 ≤ 127`) and every 8-bit
status value `s` read from `TWSR`, when `TWINT` is raised within the budget,
`twi_send_sla` called with the write pair `0x18 / 0x20` returns `I2C_OK` if
`s & 0xF8 = 0x18`, `I2C_NACK` if `s & 0xF8 = 0x20` and `I2C_ERROR` otherwise,
and called with the read pair `0x40 / 0x48` returns `I2C_OK` for `0x40`,
`I2C_NACK` for `0x48` and `I2C_ERROR` otherwise; `I2C_OK` comes only on the
expected ack code; two runs whose status values agree on the top five bits
return the same status; and these are the calls `i2c_start_write`,
`i2c_restart_write`, `i2c_start_read` and `i2c_restart_read` make once their
start step has returned `I2C_OK`. -/
theorem twi_send_sla_status_mapping (cfg : Config) (hw : Hw) (addr7 s : Nat)
    (hs : s < 256) (h32 : cfg.I2C_TIMEOUT < 4294967296)
    (hflag : ∃ k, k < cfg.I2C_TIMEOUT ∧ flag_at TWINT hw k)
    (hstat : hw.twsr_in hw.twsr_reads = s) :
    (∃ hw1, twi_send_sla cfg (sla_byte addr7 0) 0x18 0x20 hw =
      some (if s &&& 0xF8 = 0x18 then I2C_OK
        else if s &&& 0xF8 = 0x20 then I2C_NACK else I2C_ERROR, hw1)) ∧
    (∃ hw1, twi_send_sla cfg (sla_byte addr7 1) 0x40 0x48 hw =
      some (if s &&& 0xF8 = 0x40 then I2C_OK
        else if s &&& 0xF8 = 0x48 then I2C_NACK else I2C_ERROR, hw1)) ∧
    (∀ hw1, twi_send_sla cfg (sla_byte addr7 0) 0x18 0x20 hw = some (I2C_OK, hw1) →
      s &&& 0xF8 = 0x18) ∧
    (∀ hw1, twi_send_sla cfg (sla_byte addr7 1) 0x40 0x48 hw = some (I2C_OK, hw1) →
      s &&& 0xF8 = 0x40) ∧
    (∀ hw2 : Hw, (∃ k, k < cfg.I2C_TIMEOUT ∧ flag_at TWINT hw2 k) →
      TWSR_value hw2 &&& 0xF8 = s &&& 0xF8 →
      (twi_send_sla cfg (sla_byte addr7 0) 0x18 0x20 hw2).map Prod.fst =
        (twi_send_sla cfg (sla_byte addr7 0) 0x18 0x20 hw).map Prod.fst ∧
      (twi_send_sla cfg (sla_byte addr7 1) 0x40 0x48 hw2).map Prod.fst =
        (twi_send_sla cfg (sla_byte addr7 1) 0x40 0x48 hw).map Prod.fst) ∧
    (∀ hw0 hw1 : Hw, twi_send_start cfg 0 hw0 = some (I2C_OK, hw1) →
      i2c_start_write cfg addr7 hw0 = twi_send_sla cfg (sla_byte addr7 0) 0x18 0x20 hw1 ∧
      i2c_start_read cfg addr7 hw0 = twi_send_sla cfg (sla_byte addr7 1) 0x40 0x48 hw1) ∧
    (∀ hw0 hw1 : Hw, twi_send_start cfg 1 hw0 = some (I2C_OK, hw1) →
      i2c_restart_write cfg addr7 hw0 = twi_send_sla cfg (sla_byte addr7 0) 0x18 0x20 hw1 ∧
      i2c_restart_read cfg addr7 hw0 = twi_send_sla cfg (sla_byte addr7 1) 0x40 0x48 hw1) := by
  have hv : TWSR_value hw = s := by
    unfold TWSR_value
    rw [hstat, Nat.mod_eq_of_lt hs]
  obtain ⟨pw, _, _, hw_eq⟩ := twi_send_sla_raised cfg (sla_byte addr7 0) 0x18 0x20 hw h32 hflag
  obtain ⟨pr, _, _, hr_eq⟩ := twi_send_sla_raised cfg (sla_byte addr7 1) 0x40 0x48 hw h32 hflag
  rw [hv] at hw_eq hr_eq
  refine ⟨⟨_, hw_eq⟩, ⟨_, hr_eq⟩, ?_, ?_, ?_, ?_, ?_⟩
  · intro hw1 h
    rw [hw_eq] at h
    by_contra hne
    simp only [if_neg hne, Option.some.injEq, Prod.mk.injEq] at h
    have h1 := h.1
    split_ifs at h1
  · intro hw1 h
    rw [hr_eq] at h
    by_contra hne
    simp only [if_neg hne, Option.some.injEq, Prod.mk.injEq] at h
    have h1 := h.1
    split_ifs at h1
  · intro hw2 hflag2 hagree
    obtain ⟨_, _, _, hw2_eq⟩ :=
      twi_send_sla_raised cfg (sla_byte addr7 0) 0x18 0x20 hw2 h32 hflag2
    obtain ⟨_, _, _, hr2_eq⟩ :=
      twi_send_sla_raised cfg (sla_byte addr7 1) 0x40 0x48 hw2 h32 hflag2
    rw [hw2_eq, hr2_eq, hw_eq, hr_eq, hagree]
    exact ⟨rfl, rfl⟩
  · intro hw0 hw1 hok
    rw [i2c_start_write_eq cfg addr7 hw0 _ hok, i2c_start_read_eq cfg addr7 hw0 _ hok]
    exact ⟨if_neg (by simp), if_neg (by simp)⟩
  · intro hw0 hw1 hok
    rw [i2c_restart_write_eq cfg addr7 hw0 _ hok, i2c_restart_read_eq cfg addr7 hw0 _ hok]
    exact ⟨if_neg (by simp), if_neg (by simp)⟩

/-- Witness for C1: address `0x50`, default budget, flag raised at once, status `0x18`. -/
theorem twi_send_sla_status_mapping_witness :
    (0x18 < 256) ∧ defaults.I2C_TIMEOUT < 4294967296 ∧
    (∃ k, k < defaults.I2C_TIMEOUT ∧ flag_at TWINT hw_ack k) ∧
    hw_ack.twsr_in hw_ack.twsr_reads = 0x18 ∧
    (∃ hw1, twi_send_sla defaults (sla_byte 0x50 0) 0x18 0x20 hw_ack = some (I2C_OK, hw1)) ∧
    (∃ hw1, twi_send_sla defaults (sla_byte 0x50 1) 0x40 0x48 hw_ack = some (I2C_ERROR, hw1)) :=
  ⟨by decide, by decide, ⟨0, by decide, by decide⟩, rfl,
    (twi_send_sla_status_mapping defaults hw_ack 0x50 0x18 (by decide) (by decide)
      ⟨0, by decide, by decide⟩ rfl).1,
    (twi_send_sla_status_mapping defaults hw_ack 0x50 0x18 (by decide) (by decide)
      ⟨0, by decide, by decide⟩ rfl).2.1⟩

/-! ## Start and repeated start -/

/-- C5: for every 8-bit status value `s`, when `TWINT` is raised within the
budget, `twi_send_start(0)` returns `I2C_OK` exactly when `s & 0xF8 = 0x08` and
`twi_send_start(1)` exactly when `s & 0xF8` is `0x08` or `0x10`; otherwise both
return `I2C_ERROR`.  On any hardware neither returns `I2C_NACK`, and both make
the same single register write, `0xA4` to `TWCR`. -/
theorem twi_send_start_accepts (cfg : Config) (hw : Hw) (s : Nat)
    (hs : s < 256) (h32 : cfg.I2C_TIMEOUT < 4294967296)
    (hflag : ∃ k, k < cfg.I2C_TIMEOUT ∧ flag_at TWINT hw k)
    (hstat : hw.twsr_in hw.twsr_reads = s) :
    (∃ st hw1, twi_send_start cfg 0 hw = some (st, hw1) ∧
      (st = I2C_OK ↔ s &&& 0xF8 = 0x08) ∧ (st ≠ I2C_OK → st = I2C_ERROR)) ∧
    (∃ st hw1, twi_send_start cfg 1 hw = some (st, hw1) ∧
      (st = I2C_OK ↔ (s &&& 0xF8 = 0x08 ∨ s &&& 0xF8 = 0x10)) ∧
      (st ≠ I2C_OK → st = I2C_ERROR)) ∧
    (∀ (hw0 hw1 : Hw) (allow : Nat), twi_send_start cfg allow hw0 ≠ some (I2C_NACK, hw1)) ∧
    (∀ (hw0 hw1 : Hw) (allow : Nat) (st : i2c_status_t),
      twi_send_start cfg allow hw0 = some (st, hw1) →
      hw1.writes = (Reg.TWCR, 0xA4) :: hw0.writes) := by
  have hv : TWSR_value hw = s := by
    unfold TWSR_value
    rw [hstat, Nat.mod_eq_of_lt hs]
  obtain ⟨p0, _, _, h0⟩ := twi_send_start_raised cfg 0 hw h32 hflag
  obtain ⟨p1, _, _, h1⟩ := twi_send_start_raised cfg 1 hw h32 hflag
  rw [hv] at h0 h1
  refine ⟨⟨_, _, h0, ?_, ?_⟩, ⟨_, _, h1, ?_, ?_⟩, ?_,
    fun hw0 hw1 allow st h => twi_send_start_writes cfg allow hw0 st hw1 h⟩
  · by_cases h : s &&& 0xF8 = 0x08 <;> simp [h]
  · by_cases h : s &&& 0xF8 = 0x08 <;> simp [h]
  · by_cases h : s &&& 0xF8 = 0x08 <;> by_cases h2 : s &&& 0xF8 = 0x10 <;> simp [h, h2]
  · by_cases h : s &&& 0xF8 = 0x08 <;> by_cases h2 : s &&& 0xF8 = 0x10 <;> simp [h, h2]
  · intro hw0 hw1 allow hc
    obtain ⟨p, _, e | e | e⟩ := twi_send_start_shape cfg allow hw0 <;>
      rw [e] at hc <;> cases hc

/-- Witness for C5: default budget, flag raised at once, status `0x08`. -/
theorem twi_send_start_accepts_witness :
    (0x08 < 256) ∧ defaults.I2C_TIMEOUT < 4294967296 ∧
    (∃ k, k < defaults.I2C_TIMEOUT ∧ flag_at TWINT hw_ready k) ∧
    hw_ready.twsr_in hw_ready.twsr_reads = 0x08 ∧
    (∃ st hw1, twi_send_start defaults 0 hw_ready = some (st, hw1) ∧
      (st = I2C_OK ↔ 0x08 &&& 0xF8 = 0x08) ∧ (st ≠ I2C_OK → st = I2C_ERROR)) :=
  ⟨by decide, by decide, ⟨0, by decide, by decide⟩, rfl,
    (twi_send_start_accepts defaults hw_ready 0x08 (by decide) (by decide)
      ⟨0, by decide, by decide⟩ rfl).1⟩

/-! ## Address byte -/

/-- C4: for every `addr7 ≤ 127` the address byte is `(addr7 << 1) | 0` for a
write and `(addr7 << 1) | 1` for a read, untruncated: shifted right by one it
gives `addr7` back and its low bit is the direction.  When the start step
returns `I2C_OK`, `i2c_start_write` and `i2c_restart_write` store the write
byte in `TWDR`, `i2c_start_read` and `i2c_restart_read` the read byte, as the
only data register write of the call.  For `addr7 = 0x50` the bytes are `0xA0`
and `0xA1`. -/
theorem sla_byte_encoding (cfg : Config) (addr7 : Nat) (ha : addr7 ≤ 127) :
    sla_byte addr7 0 = (addr7 <<< 1) ||| 0 ∧
    sla_byte addr7 1 = (addr7 <<< 1) ||| 1 ∧
    sla_byte addr7 0 >>> 1 = addr7 ∧ sla_byte addr7 0 &&& 1 = 0 ∧
    sla_byte addr7 1 >>> 1 = addr7 ∧ sla_byte addr7 1 &&& 1 = 1 ∧
    (∀ hw hw0 : Hw, twi_send_start cfg 0 hw = some (I2C_OK, hw0) →
      (∃ st hw1, i2c_start_write cfg addr7 hw = some (st, hw1) ∧ hw1.writes =
        (Reg.TWCR, 0x84) :: (Reg.TWDR, (addr7 <<< 1) ||| 0) :: (Reg.TWCR, 0xA4) :: hw.writes) ∧
      (∃ st hw1, i2c_start_read cfg addr7 hw = some (st, hw1) ∧ hw1.writes =
        (Reg.TWCR, 0x84) :: (Reg.TWDR, (addr7 <<< 1) ||| 1) :: (Reg.TWCR, 0xA4) :: hw.writes)) ∧
    (∀ hw hw0 : Hw, twi_send_start cfg 1 hw = some (I2C_OK, hw0) →
      (∃ st hw1, i2c_restart_write cfg addr7 hw = some (st, hw1) ∧ hw1.writes =
        (Reg.TWCR, 0x84) :: (Reg.TWDR, (addr7 <<< 1) ||| 0) :: (Reg.TWCR, 0xA4) :: hw.writes) ∧
      (∃ st hw1, i2c_restart_read cfg addr7 hw = some (st, hw1) ∧ hw1.writes =
        (Reg.TWCR, 0x84) :: (Reg.TWDR, (addr7 <<< 1) ||| 1) :: (Reg.TWCR, 0xA4) :: hw.writes)) ∧
    (addr7 = 0x50 → sla_byte addr7 0 = 0xA0 ∧ sla_byte addr7 1 = 0xA1) := by
  have e0 := sla_byte_eq addr7 0 ha (by decide)
  have e1 := sla_byte_eq addr7 1 ha (by decide)
  have s0 := shl_or addr7 0 (by decide)
  have s1 := shl_or addr7 1 (by decide)
  have m0 : sla_byte addr7 0 % 256 = (addr7 <<< 1) ||| 0 := by
    rw [s0, e0]
    exact Nat.mod_eq_of_lt (by omega)
  have m1 : sla_byte addr7 1 % 256 = (addr7 <<< 1) ||| 1 := by
    rw [s1, e1]
    exact Nat.mod_eq_of_lt (by omega)
  have key : ∀ (allow b ack nack : Nat) (hw hw0 : Hw) (F : Option (i2c_status_t × Hw)),
      (∀ r, twi_send_start cfg allow hw = some r →
        F = if r.1 ≠ I2C_OK then some r else twi_send_sla cfg b ack nack r.2) →
      twi_send_start cfg allow hw = some (I2C_OK, hw0) →
      ∃ st hw1, F = some (st, hw1) ∧ hw1.writes =
        (Reg.TWCR, 0x84) :: (Reg.TWDR, b % 256) :: (Reg.TWCR, 0xA4) :: hw.writes := by
    intro allow b ack nack hw hw0 F hdef hok
    obtain ⟨st, hw1, hF, h | ⟨_, _, _, h⟩⟩ := start_sla_shape cfg allow b ack nack hw F hdef
    · rw [hok] at h
      have hst := h.2.1
      simp only [Option.some.injEq, Prod.mk.injEq] at hst
      exact absurd hst.1.symm h.1
    · exact ⟨st, hw1, hF, h⟩
  refine ⟨by rw [e0, s0], by rw [e1, s1], ?_, ?_, ?_, ?_, ?_, ?_, ?_⟩
  · rw [e0, Nat.shiftRight_eq_div_pow, pow_one]
    omega
  · rw [e0, Nat.and_one_is_mod]
    omega
  · rw [e1, Nat.shiftRight_eq_div_pow, pow_one]
    omega
  · rw [e1, Nat.and_one_is_mod]
    omega
  · intro hw hw0 hok
    rw [← m0, ← m1]
    exact ⟨key 0 _ _ _ hw hw0 _ (i2c_start_write_eq cfg addr7 hw) hok,
      key 0 _ _ _ hw hw0 _ (i2c_start_read_eq cfg addr7 hw) hok⟩
  · intro hw hw0 hok
    rw [← m0, ← m1]
    exact ⟨key 1 _ _ _ hw hw0 _ (i2c_restart_write_eq cfg addr7 hw) hok,
      key 1 _ _ _ hw hw0 _ (i2c_restart_read_eq cfg addr7 hw) hok⟩
  · intro h
    subst h
    exact ⟨by decide, by decide⟩

/-- Witness for C4: address `0x50`. -/
theorem sla_byte_encoding_witness :
    (0x50 ≤ 127) ∧ sla_byte 0x50 0 = 0xA0 ∧ sla_byte 0x50 1 = 0xA1 ∧
    sla_byte 0x50 0 >>> 1 = 0x50 ∧ sla_byte 0x50 1 >>> 1 = 0x50 :=
  ⟨by decide,
    ((sla_byte_encoding defaults 0x50 (by decide)).2.2.2.2.2.2.2.2 rfl).1,
    ((sla_byte_encoding defaults 0x50 (by decide)).2.2.2.2.2.2.2.2 rfl).2,
    (sla_byte_encoding defaults 0x50 (by decide)).2.2.1,
    (sla_byte_encoding defaults 0x50 (by decide)).2.2.2.2.1⟩

/-! ## Initialization -/

/-- C6: for every `F_CPU` (an `unsigned long`, so below `2^32`) and
`I2C_SCL_FREQ > 0` with `F_CPU / I2C_SCL_FREQ ≥ 16`, `i2c_init` writes `0` to
`TWSR` (prescaler bits 0), then `min 255 ((F_CPU / I2C_SCL_FREQ - 16) / 2)` to
`TWBR`, then `1 << TWEN` to `TWCR`; with 16000000 and 100000 the divider is 72. -/
theorem i2c_init_divider (cfg : Config) (hw : Hw) (hS : 0 < cfg.I2C_SCL_FREQ)
    (hF : cfg.F_CPU < 4294967296) (h16 : 16 ≤ cfg.F_CPU / cfg.I2C_SCL_FREQ) :
    (i2c_init cfg hw).writes =
      (Reg.TWCR, 0x04) ::
      (Reg.TWBR, min 255 ((cfg.F_CPU / cfg.I2C_SCL_FREQ - 16) / 2)) ::
      (Reg.TWSR, 0x00) :: hw.writes ∧
    last_write Reg.TWBR (i2c_init cfg hw).writes =
      some (min 255 ((cfg.F_CPU / cfg.I2C_SCL_FREQ - 16) / 2)) ∧
    last_write Reg.TWSR (i2c_init cfg hw).writes = some 0 ∧
    (cfg.F_CPU = 16000000 → cfg.I2C_SCL_FREQ = 100000 →
      last_write Reg.TWBR (i2c_init cfg hw).writes = some 72) := by
  have hq : cfg.F_CPU / cfg.I2C_SCL_FREQ < 4294967296 :=
    lt_of_le_of_lt (Nat.div_le_self _ _) hF
  have hpos : 1 ≤ cfg.I2C_SCL_FREQ := hS
  have hval : i2c_init_twbr cfg % 256 = min 255 ((cfg.F_CPU / cfg.I2C_SCL_FREQ - 16) / 2) := by
    unfold i2c_init_twbr
    simp only []
    generalize cfg.F_CPU / cfg.I2C_SCL_FREQ = q at hq h16
    split_ifs <;> omega
  have hlog : (i2c_init cfg hw).writes =
      (Reg.TWCR, 0x04) ::
      (Reg.TWBR, min 255 ((cfg.F_CPU / cfg.I2C_SCL_FREQ - 16) / 2)) ::
      (Reg.TWSR, 0x00) :: hw.writes := by
    rw [i2c_init_writes, hval]
  refine ⟨hlog, ?_, ?_, ?_⟩
  · rw [hlog]
    simp [last_write]
  · rw [hlog]
    simp [last_write]
  · intro hf hs
    rw [hlog, hf, hs]
    simp [last_write]

/-- Witness for C6: the default clock and bit rate. -/
theorem i2c_init_divider_witness :
    (0 < defaults.I2C_SCL_FREQ) ∧ defaults.F_CPU < 4294967296 ∧
    16 ≤ defaults.F_CPU / defaults.I2C_SCL_FREQ ∧
    last_write Reg.TWBR (i2c_init defaults hw_ready).writes = some 72 :=
  ⟨by decide, by decide, by decide,
    (i2c_init_divider defaults hw_ready (by decide) (by decide) (by decide)).2.2.2 rfl rfl⟩

/-! ## Stop -/

/-- C7: for every budget `N = I2C_TIMEOUT` with `1 ≤ N` (a `uint32_t`, so
`N < 2^32`) and every behaviour of the `TWSTO` flag, `i2c_stop` returns (it has
no status to report): it writes `0x94` to `TWCR` and then only polls `TWCR`,
`p` times with `1 ≤ p ≤ N`; when the first poll reads `TWSTO` clear it polls
exactly once, and when `TWSTO` stays set it polls `N` times. -/
theorem i2c_stop_bounded (cfg : Config) (hw : Hw)
    (h1 : 1 ≤ cfg.I2C_TIMEOUT) (h32 : cfg.I2C_TIMEOUT < 4294967296) :
    ∃ p, i2c_stop cfg hw = some (after_polls p (reg_write Reg.TWCR 0x94 hw)) ∧
      1 ≤ p ∧ p ≤ cfg.I2C_TIMEOUT ∧
      (¬ flag_at TWSTO hw 0 → p = 1) ∧
      ((∀ k, k < cfg.I2C_TIMEOUT → flag_at TWSTO hw k) → p = cfg.I2C_TIMEOUT) := by
  have hd : dec32 (cfg.I2C_TIMEOUT % 4294967296) = cfg.I2C_TIMEOUT - 1 := by
    rw [Nat.mod_eq_of_lt h32]
    exact dec32_of_pos _ h1 h32
  obtain ⟨k, hk, hmin, hlast, heq⟩ := i2c_stop_spec cfg hw
  rw [hd] at hk hlast
  refine ⟨k + 1, heq, by omega, by omega, fun hclr => ?_, fun hset => ?_⟩
  · by_contra hne
    exact hclr (hmin 0 (by omega))
  · rcases hlast with hclr | hkN
    · exact absurd (hset k (by omega)) hclr
    · omega

/-- Witness for C7: the default budget on an idle bus (`TWSTO` reads clear). -/
theorem i2c_stop_bounded_witness :
    1 ≤ defaults.I2C_TIMEOUT ∧ defaults.I2C_TIMEOUT < 4294967296 ∧
    ∃ p, i2c_stop defaults hw_ready = some (after_polls p (reg_write Reg.TWCR 0x94 hw_ready)) ∧
      1 ≤ p ∧ p ≤ defaults.I2C_TIMEOUT ∧
      (¬ flag_at TWSTO hw_ready 0 → p = 1) ∧
      ((∀ k, k < defaults.I2C_TIMEOUT → flag_at TWSTO hw_ready k) →
        p = defaults.I2C_TIMEOUT) :=
  ⟨by decide, by decide, i2c_stop_bounded defaults hw_ready (by decide) (by decide)⟩

/-! ## Enable bit -/

/-- C9: every value written to `TWCR` has `TWEN` set: `0x04` by `i2c_init`,
`0xA4` by `twi_send_start`, `0x84` by `twi_send_sla` and `0x94` by `i2c_stop`,
each the only `TWCR` write of its function.  Hence any sequence of
`i2c_start_write`, `i2c_start_read`, `i2c_restart_write`, `i2c_restart_read`
and `i2c_stop` calls made after `i2c_init` runs to its end, every `TWCR` write
made since the beginning has `TWEN` set, and so has the last value written to
`TWCR`. -/
theorem twen_never_cleared (cfg : Config) (hw0 : Hw) (calls : List Call) :
    writes_to Reg.TWCR (i2c_init cfg hw0).writes = 0x04 :: writes_to Reg.TWCR hw0.writes ∧
    (∀ (hw hw1 : Hw) (allow : Nat) (st : i2c_status_t),
      twi_send_start cfg allow hw = some (st, hw1) →
      writes_to Reg.TWCR hw1.writes = 0xA4 :: writes_to Reg.TWCR hw.writes) ∧
    (∀ (hw hw1 : Hw) (b ack nack : Nat) (st : i2c_status_t),
      twi_send_sla cfg b ack nack hw = some (st, hw1) →
      writes_to Reg.TWCR hw1.writes = 0x84 :: writes_to Reg.TWCR hw.writes) ∧
    (∀ hw hw1 : Hw, i2c_stop cfg hw = some hw1 →
      writes_to Reg.TWCR hw1.writes = 0x94 :: writes_to Reg.TWCR hw.writes) ∧
    (0x04 &&& (1 <<< TWEN) ≠ 0 ∧ 0xA4 &&& (1 <<< TWEN) ≠ 0 ∧
      0x84 &&& (1 <<< TWEN) ≠ 0 ∧ 0x94 &&& (1 <<< TWEN) ≠ 0) ∧
    (∃ hwf new, run_calls cfg calls (i2c_init cfg hw0) = some hwf ∧
      hwf.writes = new ++ hw0.writes ∧
      (∀ v, (Reg.TWCR, v) ∈ new → v &&& (1 <<< TWEN) ≠ 0) ∧
      ∃ v, last_write Reg.TWCR hwf.writes = some v ∧ v &&& (1 <<< TWEN) ≠ 0) := by
  have hinit := i2c_init_writes cfg hw0
  obtain ⟨hwf, new, hrun, hn, hbit, hnil, hlast⟩ := run_calls_writes cfg calls (i2c_init cfg hw0)
  have hall : ∀ v, (Reg.TWCR, v) ∈
      new ++ [(Reg.TWCR, 0x04), (Reg.TWBR, i2c_init_twbr cfg % 256), (Reg.TWSR, 0x00)] →
      v &&& (1 <<< TWEN) ≠ 0 := by
    intro v hv
    rcases List.mem_append.1 hv with h | h
    · exact hbit v h
    · simp only [List.mem_cons, Prod.mk.injEq, true_and, false_and, false_or,
        List.mem_singleton, reduceCtorEq, List.not_mem_nil, or_false] at h
      rw [h]
      exact twen_set_04
  have hlog : hwf.writes
      = (new ++ [(Reg.TWCR, 0x04), (Reg.TWBR, i2c_init_twbr cfg % 256), (Reg.TWSR, 0x00)])
        ++ hw0.writes := by
    rw [hn, hinit, List.append_assoc]
    rfl
  refine ⟨by rw [hinit]; rfl, ?_, ?_, ?_,
    ⟨twen_set_04, twen_set_A4, twen_set_84, twen_set_94⟩, hwf, _, hrun, hlog, hall, ?_⟩
  · intro hw hw1 allow st h
    rw [twi_send_start_writes cfg allow hw st hw1 h]
    rfl
  · intro hw hw1 b ack nack st h
    rw [twi_send_sla_writes cfg b ack nack hw st hw1 h]
    rfl
  · intro hw hw1 h
    rw [i2c_stop_writes cfg hw hw1 h]
    rfl
  · have hex : ∃ v, last_write Reg.TWCR
        (new ++ [(Reg.TWCR, 0x04), (Reg.TWBR, i2c_init_twbr cfg % 256), (Reg.TWSR, 0x00)])
          = some v := by
      by_cases hc : calls = []
      · rw [hnil hc]
        exact ⟨0x04, by simp [last_write]⟩
      · obtain ⟨w, hw1⟩ := hlast hc
        exact ⟨w, last_write_append Reg.TWCR w _ new hw1⟩
    obtain ⟨v, hv⟩ := hex
    refine ⟨v, ?_, hall v (last_write_mem Reg.TWCR v _ hv)⟩
    rw [hlog]
    exact last_write_append Reg.TWCR v _ _ hv

/-! ## Failed start -/

/-- C10: when the start step of `i2c_start_write`, `i2c_start_read`,
`i2c_restart_write` or `i2c_restart_read` returns a non-Ok outcome, the function
returns exactly that outcome and final state, the outcome is `I2C_TIMEOUT_ERR`
or `I2C_ERROR`, and the only register write of the call is the single start
trigger `0xA4` to `TWCR`: no retry, nothing stored in `TWDR`.  With a budget
`1 ≤ N < 2^32` the start step returns `I2C_TIMEOUT_ERR` when `TWINT` is never
raised within the budget, and `I2C_ERROR` when it is raised and the status is
not an accepted start code. -/
theorem failed_start_ends_step (cfg : Config) (hw : Hw) (addr7 : Nat) :
    (∀ (st : i2c_status_t) (hw1 : Hw), twi_send_start cfg 0 hw = some (st, hw1) →
      st ≠ I2C_OK →
      i2c_start_write cfg addr7 hw = some (st, hw1) ∧
      i2c_start_read cfg addr7 hw = some (st, hw1) ∧
      (st = I2C_TIMEOUT_ERR ∨ st = I2C_ERROR) ∧
      hw1.writes = (Reg.TWCR, 0xA4) :: hw.writes) ∧
    (∀ (st : i2c_status_t) (hw1 : Hw), twi_send_start cfg 1 hw = some (st, hw1) →
      st ≠ I2C_OK →
      i2c_restart_write cfg addr7 hw = some (st, hw1) ∧
      i2c_restart_read cfg addr7 hw = some (st, hw1) ∧
      (st = I2C_TIMEOUT_ERR ∨ st = I2C_ERROR) ∧
      hw1.writes = (Reg.TWCR, 0xA4) :: hw.writes) ∧
    (1 ≤ cfg.I2C_TIMEOUT → cfg.I2C_TIMEOUT < 4294967296 →
      (∀ k, k < cfg.I2C_TIMEOUT → ¬ flag_at TWINT hw k) →
      ∀ allow, ∃ hw1, twi_send_start cfg allow hw = some (I2C_TIMEOUT_ERR, hw1)) ∧
    (cfg.I2C_TIMEOUT < 4294967296 → (∃ k, k < cfg.I2C_TIMEOUT ∧ flag_at TWINT hw k) →
      (TWSR_value hw &&& 0xF8 ≠ 0x08 →
        ∃ hw1, twi_send_start cfg 0 hw = some (I2C_ERROR, hw1)) ∧
      (TWSR_value hw &&& 0xF8 ≠ 0x08 → TWSR_value hw &&& 0xF8 ≠ 0x10 →
        ∃ hw1, twi_send_start cfg 1 hw = some (I2C_ERROR, hw1))) := by
  have hfail : ∀ (allow : Nat) (st : i2c_status_t) (hw1 : Hw),
      twi_send_start cfg allow hw = some (st, hw1) → st ≠ I2C_OK →
      st = I2C_TIMEOUT_ERR ∨ st = I2C_ERROR := by
    intro allow st hw1 h hne
    obtain ⟨p, _, e | e | e⟩ := twi_send_start_shape cfg allow hw <;>
      rw [e] at h <;> cases h
    · exact Or.inl rfl
    · exact absurd rfl hne
    · exact Or.inr rfl
  refine ⟨fun st hw1 h hne => ?_, fun st hw1 h hne => ?_, ?_, ?_⟩
  · refine ⟨?_, ?_, hfail 0 st hw1 h hne, twi_send_start_writes cfg 0 hw st hw1 h⟩
    · rw [i2c_start_write_eq cfg addr7 hw _ h]
      exact if_pos hne
    · rw [i2c_start_read_eq cfg addr7 hw _ h]
      exact if_pos hne
  · refine ⟨?_, ?_, hfail 1 st hw1 h hne, twi_send_start_writes cfg 1 hw st hw1 h⟩
    · rw [i2c_restart_write_eq cfg addr7 hw _ h]
      exact if_pos hne
    · rw [i2c_restart_read_eq cfg addr7 hw _ h]
      exact if_pos hne
  · intro h1 h32 hclr allow
    have hw1 := twi_wait_twint_never cfg (reg_write Reg.TWCR 0xA4 hw) h1 h32
      (fun k hk => by rw [flag_at_reg_write]; exact hclr k hk)
    refine ⟨after_polls cfg.I2C_TIMEOUT (reg_write Reg.TWCR 0xA4 hw), ?_⟩
    unfold twi_send_start
    simp only [show (1 <<< TWINT ||| 1 <<< TWSTA ||| 1 <<< TWEN) = 0xA4 from by decide, hw1]
    simp
  · intro h32 hflag
    obtain ⟨p0, _, _, h0⟩ := twi_send_start_raised cfg 0 hw h32 hflag
    obtain ⟨p1, _, _, h1⟩ := twi_send_start_raised cfg 1 hw h32 hflag
    refine ⟨fun hs => ⟨TWSR_next (after_polls p0 (reg_write Reg.TWCR 0xA4 hw)), ?_⟩,
      fun hs hr => ⟨TWSR_next (after_polls p1 (reg_write Reg.TWCR 0xA4 hw)), ?_⟩⟩
    · rw [h0]
      simp [hs]
    · rw [h1]
      simp [hs, hr]

/-- Witness for C10: with the default budget, hardware that never raises `TWINT`
makes the start step time out; `i2c_start_write` returns `I2C_TIMEOUT_ERR` and
has written only the start trigger. -/
theorem failed_start_ends_step_witness :
    ∃ hw1, twi_send_start defaults 0 hw_silent = some (I2C_TIMEOUT_ERR, hw1) ∧
      i2c_start_write defaults 0x50 hw_silent = some (I2C_TIMEOUT_ERR, hw1) ∧
      hw1.writes = [(Reg.TWCR, 0xA4)] := by
  obtain ⟨hw1, ht⟩ := (failed_start_ends_step defaults hw_silent 0x50).2.2.1
    (by decide) (by decide) (fun k _ => hw_silent_never k) 0
  have h := (failed_start_ends_step defaults hw_silent 0x50).1 I2C_TIMEOUT_ERR hw1 ht
    (fun hc => i2c_status_t.noConfusion hc)
  exact ⟨hw1, ht, h.1, h.2.2.2⟩

/-! ## Stop on every exit path -/

/-- C8: for every address, register selector, buffer and length and every
injected behaviour of the sub-steps, `i2c_write_reg` and `i2c_read_reg` issue
the stop primitive exactly once, as the last primitive of the call, and return
the outcome of the first failing sub-step, no later sub-step being issued, or
`I2C_OK` when none of the `3 + len` (write) or `5 + len` (read) sub-steps fails. -/
theorem stop_on_every_exit_path (b : Bus) (addr7 reg : Nat) (data : List Nat) (len : Nat) :
    (∃ done, (i2c_write_reg b addr7 reg data len).2.issued = Prim.stop :: (done ++ b.issued) ∧
      Prim.stop ∉ done) ∧
    (∃ done, (i2c_read_reg b addr7 reg data len).2.1.issued = Prim.stop :: (done ++ b.issued) ∧
      Prim.stop ∉ done) ∧
    (∀ k, k < 3 + len → (∀ j, j < k → b.outcome (b.steps + j) = I2C_OK) →
      b.outcome (b.steps + k) ≠ I2C_OK →
      (i2c_write_reg b addr7 reg data len).1 = b.outcome (b.steps + k) ∧
      (i2c_write_reg b addr7 reg data len).2.steps = b.steps + k + 1) ∧
    ((∀ j, j < 3 + len → b.outcome (b.steps + j) = I2C_OK) →
      (i2c_write_reg b addr7 reg data len).1 = I2C_OK ∧
      (i2c_write_reg b addr7 reg data len).2.steps = b.steps + (3 + len)) ∧
    (∀ k, k < 5 + len → (∀ j, j < k → b.outcome (b.steps + j) = I2C_OK) →
      b.outcome (b.steps + k) ≠ I2C_OK →
      (i2c_read_reg b addr7 reg data len).1 = b.outcome (b.steps + k) ∧
      (i2c_read_reg b addr7 reg data len).2.1.steps = b.steps + k + 1) ∧
    ((∀ j, j < 5 + len → b.outcome (b.steps + j) = I2C_OK) →
      (i2c_read_reg b addr7 reg data len).1 = I2C_OK ∧
      (i2c_read_reg b addr7 reg data len).2.1.steps = b.steps + (5 + len)) := by
  have hwlen : ([Prim.start, Prim.address (sla_byte addr7 0), Prim.send (reg % 256)] ++
      (List.range len).map (fun i => Prim.send (data.getD i 0))).length = 3 + len := by
    simp only [List.length_append, List.length_cons, List.length_nil, List.length_map,
      List.length_range]
  have hrlen : ([Prim.start, Prim.address (sla_byte addr7 0), Prim.send (reg % 256),
      Prim.repeated_start, Prim.address (sla_byte addr7 1)] ++ read_phase len).length
        = 5 + len := by
    simp only [List.length_append, List.length_cons, List.length_nil, read_phase_length]
  refine ⟨?_, ?_, ?_, ?_, ?_, ?_⟩
  · obtain ⟨n, _, hi⟩ := run_steps_issued
      ([Prim.start, Prim.address (sla_byte addr7 0), Prim.send (reg % 256)] ++
        (List.range len).map (fun i => Prim.send (data.getD i 0))) b
    refine ⟨_, congrArg (List.cons Prim.stop) hi, ?_⟩
    intro hmem
    exact stop_not_in_write_plan addr7 reg data len
      (List.mem_of_mem_take (List.mem_reverse.1 hmem))
  · obtain ⟨n, _, hi⟩ := run_steps_issued
      ([Prim.start, Prim.address (sla_byte addr7 0), Prim.send (reg % 256),
        Prim.repeated_start, Prim.address (sla_byte addr7 1)] ++ read_phase len) b
    refine ⟨_, congrArg (List.cons Prim.stop) hi, ?_⟩
    intro hmem
    exact stop_not_in_read_plan addr7 reg len
      (List.mem_of_mem_take (List.mem_reverse.1 hmem))
  · intro k hk hok hbad
    obtain ⟨r1, r2, _, _⟩ := run_steps_fail _ b k (by rw [hwlen]; exact hk) hok hbad
    exact ⟨r1, r2⟩
  · intro hok
    obtain ⟨r1, r2, _⟩ := run_steps_ok _ b (by rw [hwlen]; exact hok)
    rw [hwlen] at r2
    exact ⟨r1, r2⟩
  · intro k hk hok hbad
    obtain ⟨r1, r2, _, _⟩ := run_steps_fail _ b k (by rw [hrlen]; exact hk) hok hbad
    exact ⟨r1, r2⟩
  · intro hok
    obtain ⟨r1, r2, _⟩ := run_steps_ok _ b (by rw [hrlen]; exact hok)
    rw [hrlen] at r2
    exact ⟨r1, r2⟩

/-- Witness for C8: writing one byte to register 0 of the peripheral at `0x50`.
When the address phase is not acknowledged (sub-step 1) the call returns
`I2C_NACK` after two sub-steps; when every sub-step succeeds it returns `I2C_OK`
after four; either way the bus sequence ends with the one stop. -/
theorem stop_on_every_exit_path_witness :
    (i2c_write_reg bus_nack 0x50 0x00 [0xAB] 1).1 = I2C_NACK ∧
    (i2c_write_reg bus_nack 0x50 0x00 [0xAB] 1).2.steps = 2 ∧
    (i2c_write_reg bus_nack 0x50 0x00 [0xAB] 1).2.issued =
      [Prim.stop, Prim.address 0xA0, Prim.start] ∧
    (i2c_write_reg bus_ok 0x50 0x00 [0xAB] 1).1 = I2C_OK ∧
    (i2c_write_reg bus_ok 0x50 0x00 [0xAB] 1).2.issued =
      [Prim.stop, Prim.send 0xAB, Prim.send 0x00, Prim.address 0xA0, Prim.start] :=
  ⟨((stop_on_every_exit_path bus_nack 0x50 0x00 [0xAB] 1).2.2.1 1 (by decide)
      (by decide) (by decide)).1,
    ((stop_on_every_exit_path bus_nack 0x50 0x00 [0xAB] 1).2.2.1 1 (by decide)
      (by decide) (by decide)).2,
    rfl,
    ((stop_on_every_exit_path bus_ok 0x50 0x00 [0xAB] 1).2.2.2.1 (fun _ _ => rfl)).1,
    rfl⟩

/-! ## Divider when the bit rate is too high -/

/-- C11: for every `F_CPU` and `I2C_SCL_FREQ > 0` with
`F_CPU / I2C_SCL_FREQ < 16`, the 32-bit subtraction `(F_CPU / I2C_SCL_FREQ) - 16UL`
of `i2c_init` wraps around to `2^32 - 16 + F_CPU / I2C_SCL_FREQ`, the halved
value is above 255, and the value written to `TWBR` is 255, not 0. -/
theorem i2c_init_divider_wraps (cfg : Config) (hw : Hw) (hS : 0 < cfg.I2C_SCL_FREQ)
    (h16 : cfg.F_CPU / cfg.I2C_SCL_FREQ < 16) :
    ((cfg.F_CPU / cfg.I2C_SCL_FREQ) % 4294967296 + 4294967296 - 16) % 4294967296
      = 4294967280 + cfg.F_CPU / cfg.I2C_SCL_FREQ ∧
    i2c_init_twbr cfg = 255 ∧
    (i2c_init cfg hw).writes =
      (Reg.TWCR, 0x04) :: (Reg.TWBR, 255) :: (Reg.TWSR, 0x00) :: hw.writes ∧
    last_write Reg.TWBR (i2c_init cfg hw).writes = some 255 ∧
    last_write Reg.TWBR (i2c_init cfg hw).writes ≠ some 0 := by
  have hpos : 1 ≤ cfg.I2C_SCL_FREQ := hS
  have hwrap : ((cfg.F_CPU / cfg.I2C_SCL_FREQ) % 4294967296 + 4294967296 - 16) % 4294967296
      = 4294967280 + cfg.F_CPU / cfg.I2C_SCL_FREQ := by
    generalize cfg.F_CPU / cfg.I2C_SCL_FREQ = q at h16
    omega
  have hval : i2c_init_twbr cfg = 255 := by
    unfold i2c_init_twbr
    simp only []
    generalize cfg.F_CPU / cfg.I2C_SCL_FREQ = q at h16
    split_ifs <;> omega
  have hlog : (i2c_init cfg hw).writes =
      (Reg.TWCR, 0x04) :: (Reg.TWBR, 255) :: (Reg.TWSR, 0x00) :: hw.writes := by
    rw [i2c_init_writes, hval]
  have hlast : last_write Reg.TWBR (i2c_init cfg hw).writes = some 255 := by
    rw [hlog]
    simp [last_write]
  refine ⟨hwrap, hval, hlog, hlast, ?_⟩
  rw [hlast]
  exact fun h => by cases h

/-- Witness for C11: a 1 MHz clock with the default 100 kHz bit rate (quotient 10). -/
theorem i2c_init_divider_wraps_witness :
    (0 < (with_clock 1000000 100000).I2C_SCL_FREQ) ∧
    (with_clock 1000000 100000).F_CPU / (with_clock 1000000 100000).I2C_SCL_FREQ < 16 ∧
    i2c_init_twbr (with_clock 1000000 100000) = 255 ∧
    last_write Reg.TWBR (i2c_init (with_clock 1000000 100000) hw_ready).writes = some 255 :=
  ⟨by decide, by decide,
    (i2c_init_divider_wraps (with_clock 1000000 100000) hw_ready (by decide) (by decide)).2.1,
    (i2c_init_divider_wraps (with_clock 1000000 100000) hw_ready (by decide)
      (by decide)).2.2.2.1⟩

/-! ## Baud-rate divisor -/

/-- C12 does not hold on the code: the 32-bit product `div * baud` of
`uart0_calc_ubrr` is zero for a baud that is not zero.  With `baud = 2^29` in
double-speed mode (`div = 8`), and with `baud = 2^28` in normal mode
(`div = 16`), the product wraps to 0, so `uart0_calc_ubrr` and, past its own
`baud == 0` guard, `uart0_init` reach the division `F_CPU / 0`.  In general the
division is by zero exactly for the nonzero multiples of `2^32 / div`; for
every nonzero baud below `2^28` the divisor is nonzero. -/
theorem uart0_calc_ubrr_divides_by_zero :
    (536870912 ≠ 0 ∧ 536870912 < 4294967296) ∧
    uart0_divisor 536870912 true = 0 ∧
    uart0_calc_ubrr 16000000 536870912 true = none ∧
    (∀ r, uart0_init 16000000 (some (uart_8n1 536870912 true)) r = none) ∧
    uart0_divisor 268435456 false = 0 ∧
    uart0_calc_ubrr 16000000 268435456 false = none ∧
    (∀ r, uart0_init 16000000 (some (uart_8n1 268435456 false)) r = none) ∧
    (∀ (F_CPU baud : Nat) (u2x : Bool), baud < 4294967296 →
      (uart0_calc_ubrr F_CPU baud u2x = none ↔
        baud ≠ 0 ∧ baud % (if u2x then 536870912 else 268435456) = 0)) ∧
    (∀ (baud : Nat) (u2x : Bool), baud ≠ 0 → baud < 268435456 →
      uart0_divisor baud u2x ≠ 0) := by
  refine ⟨by decide, by decide, by decide, fun r => ?_, by decide, by decide, fun r => ?_,
    fun F_CPU baud u2x h32 => uart0_calc_ubrr_eq_none_iff F_CPU baud u2x h32, ?_⟩
  · exact (uart0_init_eq_none_iff 16000000 (uart_8n1 536870912 true) r).2
      ⟨by decide, by decide⟩
  · exact (uart0_init_eq_none_iff 16000000 (uart_8n1 268435456 false) r).2
      ⟨by decide, by decide⟩
  · intro baud u2x hb hlt hz
    have h := (uart0_divisor_eq_zero_iff baud u2x (by omega)).1 hz
    cases u2x
    · simp only [Bool.false_eq_true, if_false] at h
      omega
    · simp only [if_true] at h
      omega

end I2cMaster
